import Mathlib

/-
Verification of the agent-workflow-planner core pipeline.

This file gives a shallow embedding, in Lean 4, of the planner
(`lib/planner.ts`), the validator (`lib/spec.ts`), the layout engine
(`lib/layout.ts`) and the Mermaid exporter (`lib/mermaid.ts`) of the
repository, followed by theorems settling the frozen claims about them.

Strings are modelled as Lean `String` (a wrapper around `List Char`);
JavaScript `Set`/`Map` values are modelled as association lists that keep
insertion order, exactly as JS iteration does.  The handful of regular
expressions used by the source are embedded as explicit scanners over
`List Char` that reproduce the behaviour of the JS regexes involved
(all of them are simple enough that greedy scanning is exact).
-/

namespace AWP

/-- Whitespace class of JavaScript regexes (`\s`) and of `String.prototype.trim`. -/
def isJsWs (c : Char) : Bool :=
  [' ', '\t', '\n', '\r', '\x0b', '\x0c', '\u00A0', '\u1680', '\u2000',
   '\u2001', '\u2002', '\u2003', '\u2004', '\u2005', '\u2006', '\u2007',
   '\u2008', '\u2009', '\u200A', '\u2028', '\u2029', '\u202F', '\u205F',
   '\u3000', '\uFEFF'].contains c

/-- JS `String.prototype.toLowerCase`, restricted to the ASCII case mapping. -/
def jsToLower (s : String) : String := ⟨s.data.map Char.toLower⟩

/-- JS `String.prototype.includes`: substring (infix) test. -/
def jsIncludes (s sub : String) : Bool := decide (sub.data <:+: s.data)

/-- JS word character class (`\w` = `[A-Za-z0-9_]`), used for `\b` boundaries. -/
def isWordChar (c : Char) : Bool := c.isAlpha || c.isDigit || c = '_'

/-- Line terminators, which `.` in a JS regex does not match. -/
def isLineTerm (c : Char) : Bool :=
  c = '\n' || c = '\r' || c = '\u2028' || c = '\u2029'

/-- Match a single literal character at the head of the input (length 1). -/
def pChar (c : Char) : List Char → Option Nat
  | x :: _ => if x = c then some 1 else none
  | [] => none

/-- Match `\s*` greedily (always succeeds, consuming the maximal run). -/
def pWsStar (s : List Char) : Option Nat := some (s.takeWhile isJsWs).length

/-- Match `\s+` greedily (fails when no whitespace is present). -/
def pWsPlus (s : List Char) : Option Nat :=
  if (s.takeWhile isJsWs).length = 0 then none
  else some (s.takeWhile isJsWs).length

/-- Match a literal word case-insensitively (the `i` flag of the source regexes). -/
def pLit : List Char → List Char → Option Nat
  | [], _ => some 0
  | p :: ps, x :: xs => if Char.toLower x = p then (pLit ps xs).map (· + 1) else none
  | _ :: _, [] => none

/-- Sequencing of two matchers; the total consumed length is the sum. -/
def pSeq (p q : List Char → Option Nat) (s : List Char) : Option Nat :=
  match p s with
  | some n =>
    match q (s.drop n) with
    | some k => some (n + k)
    | none => none
  | none => none

/-- Matcher for `/,\s*and\s+then\s*/i` (first delimiter rule of `parseSteps`). -/
def mCommaAndThen : List Char → Option Nat :=
  pSeq (pChar ',') (pSeq pWsStar (pSeq (pLit ("and").data)
    (pSeq pWsPlus (pSeq (pLit ("then").data) pWsStar))))

/-- Matcher for `/\s+and\s+then\s+/i` (second delimiter rule of `parseSteps`). -/
def mAndThen : List Char → Option Nat :=
  pSeq pWsPlus (pSeq (pLit ("and").data)
    (pSeq pWsPlus (pSeq (pLit ("then").data) pWsPlus)))

/-- Matcher for `/\s+then\s+/i` (third delimiter rule of `parseSteps`). -/
def mThen : List Char → Option Nat :=
  pSeq pWsPlus (pSeq (pLit ("then").data) pWsPlus)

/-- Matcher for `/\.\s+/` (sentence-break rule of `parseSteps`). -/
def mDotWs : List Char → Option Nat :=
  pSeq (pChar '.') pWsPlus

/-- Matcher for `/,\s*and\s+/i` (last delimiter rule of `parseSteps`). -/
def mCommaAnd : List Char → Option Nat :=
  pSeq (pChar ',') (pSeq pWsStar (pSeq (pLit ("and").data) pWsPlus))

/-- Fuel-driven body of `scanReplace` (structural recursion on the fuel, so
that the kernel can evaluate it; a fuel of at least `s.length` is always
enough because every step consumes at least one character). -/
def scanReplaceAux (m : List Char → Option Nat) : Nat → List Char → List Char
  | 0, s => s
  | _, [] => []
  | fuel + 1, c :: cs =>
    match m (c :: cs) with
    | some (n + 1) => ',' :: ' ' :: scanReplaceAux m fuel (cs.drop n)
    | _ => c :: scanReplaceAux m fuel cs

/-- JS global `String.prototype.replace(regex, ", ")`: scan left to right,
replacing every (non-overlapping, leftmost) match with a comma and a space. -/
def scanReplace (m : List Char → Option Nat) (s : List Char) : List Char :=
  scanReplaceAux m s.length s

/-- The five-stage delimiter normalization at the start of `parseSteps`. -/
def normalizeDelims (s : List Char) : List Char :=
  scanReplace mCommaAnd (scanReplace mDotWs (scanReplace mThen
    (scanReplace mAndThen (scanReplace mCommaAndThen s))))

/-- Fuel-driven body of `splitCommaWs` (fuel of at least `s.length` suffices). -/
def splitCommaWsAux : Nat → List Char → List (List Char)
  | 0, _ => [[]]
  | _, [] => [[]]
  | fuel + 1, c :: cs =>
    if c = ',' then [] :: splitCommaWsAux fuel (cs.dropWhile isJsWs)
    else
      match splitCommaWsAux fuel cs with
      | p :: ps => (c :: p) :: ps
      | [] => [[c]]

/-- JS `normalized.split(/,\s*/)`: split at every comma plus following whitespace. -/
def splitCommaWs (s : List Char) : List (List Char) :=
  splitCommaWsAux s.length s

/-- JS `String.prototype.trim` on character lists. -/
def trimChars (s : List Char) : List Char :=
  ((s.dropWhile isJsWs).reverse.dropWhile isJsWs).reverse

/-- JS `p.replace(/\.$/, "")`: drop one trailing period if present. -/
def stripTrailingDot (s : List Char) : List Char :=
  match s.getLast? with
  | some '.' => s.dropLast
  | _ => s

/-- `parseSteps` from `lib/planner.ts`: delimiter normalization, comma split,
drop fragments of trimmed length at most 3, trim and strip a trailing period. -/
def parseSteps (description : String) : List String :=
  let normalized := normalizeDelims description.data
  let parts := (splitCommaWs normalized).filter (fun p => 3 < (trimChars p).length)
  parts.map (fun p => ⟨stripTrailingDot (trimChars p)⟩)

/-- JS `step.split(/\s+/)` — split on maximal whitespace runs (a leading or
trailing run produces an empty fragment, as in JS).  Fuel-driven body. -/
def splitWsPlusAux : Nat → List Char → List (List Char)
  | 0, _ => [[]]
  | _, [] => [[]]
  | fuel + 1, c :: cs =>
    if isJsWs c then [] :: splitWsPlusAux fuel (cs.dropWhile isJsWs)
    else
      match splitWsPlusAux fuel cs with
      | p :: ps => (c :: p) :: ps
      | [] => [[c]]

/-- JS `step.split(/\s+/)` at the `String` level (fuel `s.length` suffices). -/
def splitWsPlus (s : List Char) : List (List Char) :=
  splitWsPlusAux s.length s

/-- Fuel-driven body of `wordTokens` (fuel of at least `s.length` suffices). -/
def wordTokensAux : Nat → List Char → List (List Char)
  | 0, _ => []
  | _, [] => []
  | fuel + 1, c :: cs =>
    if isWordChar c then
      (c :: cs.takeWhile isWordChar) :: wordTokensAux fuel (cs.dropWhile isWordChar)
    else wordTokensAux fuel cs

/-- Maximal `\w+` runs of a string, the word tokens delimited by `\b`. -/
def wordTokens (s : List Char) : List (List Char) :=
  wordTokensAux s.length s

/-- `/\b(w1|w2|...)\b/i.test(s)` for plain-word alternatives: some word token
of `s` equals one of the (lower-case) words. -/
def anyWordIn (ws : List String) (s : List Char) : Bool :=
  (wordTokens s).any (fun t => ws.any (fun p => p.data == t.map Char.toLower))

/-- Case-insensitive literal prefix test (used for the `create.*report` branch). -/
def matchLowerPfx (p : List Char) (s : List Char) : Bool := (pLit p s).isSome

/-- A `\b` boundary holds to the right of a word: next char absent or non-word. -/
def wordBoundaryRight (s : List Char) : Bool :=
  match s with
  | [] => true
  | c :: _ => !isWordChar c

/-- Scan for `report\b` reachable by `.*` (no line terminators crossed). -/
def findReportFrom (s : List Char) : Bool :=
  match s with
  | [] => false
  | c :: cs =>
    (matchLowerPfx ("report").data (c :: cs) && wordBoundaryRight ((c :: cs).drop 6))
    || (!isLineTerm c && findReportFrom cs)

/-- Helper scanning for `\bcreate.*report\b`, tracking whether the previous
character was a word character (for the left `\b`). -/
def hasCreateReportAux (prevWord : Bool) (s : List Char) : Bool :=
  match s with
  | [] => false
  | c :: cs =>
    (!prevWord && matchLowerPfx ("create").data (c :: cs)
      && findReportFrom ((c :: cs).drop 6))
    || hasCreateReportAux (isWordChar c) cs

/-- Test for the `create.*report` alternative of the Generator rule. -/
def hasCreateReport (s : List Char) : Bool := hasCreateReportAux false s

-- ─────────────────────────────────────────────────────────────────────────────
-- Data model (`lib/spec.ts`)
-- ─────────────────────────────────────────────────────────────────────────────

/-- The closed set of agent archetypes (`AgentType` in `lib/spec.ts`). -/
inductive AgentType where
  | Orchestrator
  | Retriever
  | Extractor
  | Classifier
  | Generator
  | ToolExecutor
  | HumanGate
  | Notifier
deriving DecidableEq, Repr

/-- One input slot of an agent; `fromId` models the optional `from` field
(absent = a root/external input). -/
structure AgentInput where
  fromId : Option String
  name : String
deriving DecidableEq, Repr

/-- One output slot of an agent. -/
structure AgentOutput where
  name : String
deriving DecidableEq, Repr

/-- `AgentNode` from `lib/spec.ts`.  The optional `suggestedTools` and `notes`
fields are modelled as plain lists (absent = `[]`); the purely cosmetic
non-technical fields added by the planner (businessOutcome, analogy, ...) are
not part of the `AgentNode` interface and are omitted. -/
structure AgentNode where
  id : String
  name : String
  type : AgentType
  summary : String
  inputs : List AgentInput
  outputs : List AgentOutput
  suggestedTools : List String := []
  notes : List String := []
deriving DecidableEq, Repr

/-- `EdgeSpec` from `lib/spec.ts`; `fromId`/`toId` model `from`/`to`. -/
structure EdgeSpec where
  fromId : String
  toId : String
  data : String
deriving DecidableEq, Repr

/-- `AgentPlan` from `lib/spec.ts` (optional fields as empty defaults;
`dataSchemas` as an insertion-ordered record of field lists). -/
structure AgentPlan where
  version : String
  title : String
  description : String
  agents : List AgentNode
  edges : List EdgeSpec
  dataSchemas : List (String × List String) := []
  notes : List String := []
deriving DecidableEq, Repr

/-- `ValidationResult` from `lib/spec.ts`. -/
structure ValidationResult where
  ok : Bool
  errors : List String
  warnings : List String
deriving DecidableEq, Repr

/-- Display name of each archetype (TS string value of `AgentType`). -/
def agentTypeName : AgentType → String
  | .Orchestrator => "Orchestrator"
  | .Retriever => "Retriever"
  | .Extractor => "Extractor"
  | .Classifier => "Classifier"
  | .Generator => "Generator"
  | .ToolExecutor => "ToolExecutor"
  | .HumanGate => "HumanGate"
  | .Notifier => "Notifier"

-- ─────────────────────────────────────────────────────────────────────────────
-- Planner helpers (`lib/planner.ts`)
-- ─────────────────────────────────────────────────────────────────────────────

/-- The `VERB_TO_AGENT_TYPE` table: ordered (test, archetype, tools) rules. -/
def VERB_TO_AGENT_TYPE : List ((List Char → Bool) × AgentType × List String) :=
  [(anyWordIn ["ingest", "fetch", "collect", "retrieve", "get", "load", "pull"],
      .Retriever, ["API Client", "File Reader", "Database Connector"]),
   (anyWordIn ["parse", "extract", "scrape", "read"],
      .Extractor, ["Text Parser", "JSON Extractor", "Regex Matcher"]),
   (anyWordIn ["decide", "route", "classify", "categorize", "score", "rank", "filter"],
      .Classifier, ["Rule Engine", "ML Classifier", "Scoring Model"]),
   (anyWordIn ["create", "update", "write", "insert", "post", "put", "delete", "call"],
      .ToolExecutor, ["REST Client", "Database Writer", "Webhook Caller"]),
   (fun s => anyWordIn ["summarize", "draft", "write", "generate", "compose"] s
      || hasCreateReport s,
      .Generator, ["LLM", "Template Engine", "Report Builder"]),
   (anyWordIn ["approv", "review", "confirm", "human", "manual", "escalate"],
      .HumanGate, ["Approval Queue", "Email Notification", "Slack Bot"]),
   (anyWordIn ["notify", "alert", "email", "slack", "send", "message"],
      .Notifier, ["Email Service", "Slack API", "SMS Gateway", "Webhook"]),
   (anyWordIn ["enrich", "augment", "lookup", "clearbit", "external"],
      .Retriever, ["Clearbit API", "LinkedIn API", "Company Database"])]

/-- `inferAgentType` from `lib/planner.ts`: first matching rule wins,
default Generator. -/
def inferAgentType (step : String) : AgentType × List String :=
  match VERB_TO_AGENT_TYPE.find? (fun r => r.1 step.data) with
  | some r => (r.2.1, r.2.2)
  | none => (.Generator, ["LLM", "Custom Logic"])

/-- The `capitalize` helper: upper-case the first character. -/
def capitalize (s : String) : String :=
  match s.data with
  | [] => ""
  | c :: cs => ⟨Char.toUpper c :: cs⟩

/-- JS `String.prototype.trim` at the `String` level. -/
def jsTrim (s : String) : String := ⟨trimChars s.data⟩

/-- Decimal digit character. -/
def digitChar (d : Nat) : Char :=
  if d = 0 then '0' else if d = 1 then '1' else if d = 2 then '2'
  else if d = 3 then '3' else if d = 4 then '4' else if d = 5 then '5'
  else if d = 6 then '6' else if d = 7 then '7' else if d = 8 then '8' else '9'

/-- Fuel-driven little-endian decimal digits (fuel of at least `n` suffices,
since `n / 10 < n` for `n ≥ 10`). -/
def natToDecRevAux : Nat → Nat → List Char
  | 0, n => [digitChar n]
  | fuel + 1, n =>
    if n < 10 then [digitChar n]
    else digitChar (n % 10) :: natToDecRevAux fuel (n / 10)

/-- Little-endian decimal digits of a natural number. -/
def natToDecRev (n : Nat) : List Char := natToDecRevAux n n

/-- Standard decimal rendering of a natural number (JS `${i}` on a Nat). -/
def natToDecStr (n : Nat) : String := ⟨(natToDecRev n).reverse⟩

/-- `generateAgentName`: leading verb plus next 1-2 words, archetype-qualified,
truncated to 30 characters. -/
def generateAgentName (step : String) (ty : AgentType) : String :=
  let words := splitWsPlus step.data
  let verb : List Char := words.headD []
  let objJoin := List.intercalate ([' ']) ((words.drop 1).take 2)
  let object : List Char := if objJoin = [] then ("Data").data else objJoin
  ⟨((capitalize ⟨verb⟩).data ++ [' '] ++ (capitalize ⟨object⟩).data
    ++ [' '] ++ (agentTypeName ty).data).take 30⟩

/-- The fixed noun list probed by `generateOutputName`. -/
def nounList : List String :=
  ["email", "data", "ticket", "lead", "report", "record",
   "message", "result", "response", "notification"]

/-- The `verbToOutput` table of `generateOutputName`. -/
def verbToOutput : List (String × String) :=
  [("ingest", "raw_data"), ("fetch", "fetched_data"), ("collect", "collected_data"),
   ("extract", "extracted_info"), ("parse", "parsed_data"), ("classify", "classification"),
   ("route", "routed_data"), ("score", "scored_data"), ("create", "created_record"),
   ("update", "updated_record"), ("generate", "generated_content"), ("summarize", "summary"),
   ("notify", "notification"), ("email", "email_sent"), ("approve", "approved_data")]

/-- `generateOutputName` from `lib/planner.ts`. -/
def generateOutputName (step : String) (index : Nat) : String :=
  let words := splitWsPlus (jsToLower step).data
  match nounList.find? (fun noun => words.any (fun w => decide (noun.data <:+: w))) with
  | some noun => noun ++ ("_output")
  | none =>
    let w0 := words.headD []
    let verb : List Char := if w0 = [] then ("process").data else w0
    match verbToOutput.find? (fun kv => kv.1.data == verb) with
    | some kv => kv.2
    | none => ("step_") ++ natToDecStr (index + 1) ++ ("_output")

/-- `generateFields` from `lib/planner.ts` (the step argument is unused there too). -/
def generateFields (_step : String) (ty : AgentType) : List String :=
  match ty with
  | .Orchestrator => ["status", "timestamp", "metadata"]
  | .Retriever => ["raw_content", "source", "timestamp"]
  | .Extractor => ["extracted_fields", "confidence", "raw_text"]
  | .Classifier => ["category", "score", "confidence"]
  | .Generator => ["generated_text", "model_used", "tokens"]
  | .ToolExecutor => ["result", "status_code", "api_response"]
  | .HumanGate => ["decision", "approver", "comments"]
  | .Notifier => ["sent_at", "recipient", "channel"]

/-- `generateTitle`: first five words, capitalized, truncated, plus " Workflow". -/
def generateTitle (description : String) : String :=
  let words := (splitWsPlus description.data).take 5
  ⟨(capitalize ⟨List.intercalate ([' ']) words⟩).data.take 50⟩ ++ (" Workflow")

-- ─────────────────────────────────────────────────────────────────────────────
-- Canned templates (`CANNED_TEMPLATES` in `lib/planner.ts`)
-- ─────────────────────────────────────────────────────────────────────────────

/-- The "support-triage" canned template (technical fields). -/
def supportTriageTemplate : AgentPlan :=
  { version := "0.1"
  , title := "Support Ticket Triage"
  , description := "Ingest support emails, extract details, classify severity, require human approval for critical, create a Jira ticket, notify Slack."
  , agents :=
      [{ id := "email-ingester", name := "Email Ingester", type := .Retriever
       , summary := "Fetches incoming support emails from the inbox"
       , inputs := [{ fromId := none, name := "email_inbox" }]
       , outputs := [{ name := "raw_email" }]
       , suggestedTools := ["IMAP Client", "Gmail API"] },
       { id := "detail-extractor", name := "Detail Extractor", type := .Extractor
       , summary := "Parses email to extract sender, subject, body, and metadata"
       , inputs := [{ fromId := some ("email-ingester"), name := "raw_email" }]
       , outputs := [{ name := "ticket_details" }]
       , suggestedTools := ["NLP Parser", "Regex"] },
       { id := "severity-classifier", name := "Severity Classifier", type := .Classifier
       , summary := "Classifies ticket severity as low, medium, high, or critical"
       , inputs := [{ fromId := some ("detail-extractor"), name := "ticket_details" }]
       , outputs := [{ name := "severity" }, { name := "classified_ticket" }]
       , suggestedTools := ["ML Classifier", "Rule Engine"] },
       { id := "human-approval", name := "Human Approval Gate", type := .HumanGate
       , summary := "Routes critical tickets for human approval before action"
       , inputs := [{ fromId := some ("severity-classifier"), name := "classified_ticket" }]
       , outputs := [{ name := "approved_ticket" }]
       , suggestedTools := ["Slack Bot", "Email Notifier"]
       , notes := ["Only triggered for critical severity"] },
       { id := "jira-creator", name := "Jira Ticket Creator", type := .ToolExecutor
       , summary := "Creates a Jira ticket with extracted details and severity"
       , inputs := [{ fromId := some ("human-approval"), name := "approved_ticket" }]
       , outputs := [{ name := "jira_issue" }]
       , suggestedTools := ["Jira REST API"] },
       { id := "slack-notifier", name := "Slack Notifier", type := .Notifier
       , summary := "Posts notification to the support channel with ticket link"
       , inputs := [{ fromId := some ("jira-creator"), name := "jira_issue" }]
       , outputs := [{ name := "notification_sent" }]
       , suggestedTools := ["Slack Webhook", "Slack Bot"] }]
  , edges :=
      [{ fromId := "email-ingester", toId := "detail-extractor", data := "raw_email" },
       { fromId := "detail-extractor", toId := "severity-classifier", data := "ticket_details" },
       { fromId := "severity-classifier", toId := "human-approval", data := "classified_ticket" },
       { fromId := "human-approval", toId := "jira-creator", data := "approved_ticket" },
       { fromId := "jira-creator", toId := "slack-notifier", data := "jira_issue" }]
  , dataSchemas :=
      [("raw_email", ["from", "to", "subject", "body", "timestamp"]),
       ("ticket_details", ["sender", "subject", "description", "urgency_keywords"]),
       ("severity", ["level", "confidence"]),
       ("jira_issue", ["key", "url", "summary", "priority"])] }

/-- The "lead-qualification" canned template (technical fields). -/
def leadQualificationTemplate : AgentPlan :=
  { version := "0.1"
  , title := "Lead Qualification Pipeline"
  , description := "Collect inbound form submissions, enrich with Clearbit, score the lead, route to AE if score > 80, create a CRM record, and email a personalized intro."
  , agents :=
      [{ id := "form-collector", name := "Form Submission Collector", type := .Retriever
       , summary := "Collects inbound lead form submissions from the website"
       , inputs := [{ fromId := none, name := "form_webhook" }]
       , outputs := [{ name := "lead_submission" }]
       , suggestedTools := ["Webhook Handler", "Form Parser"] },
       { id := "clearbit-enricher", name := "Clearbit Enricher", type := .Retriever
       , summary := "Enriches lead data with company and person info from Clearbit"
       , inputs := [{ fromId := some ("form-collector"), name := "lead_submission" }]
       , outputs := [{ name := "enriched_lead" }]
       , suggestedTools := ["Clearbit API", "Company Database"] },
       { id := "lead-scorer", name := "Lead Scorer", type := .Classifier
       , summary := "Scores the lead based on company size, role, and engagement signals"
       , inputs := [{ fromId := some ("clearbit-enricher"), name := "enriched_lead" }]
       , outputs := [{ name := "scored_lead" }]
       , suggestedTools := ["Scoring Model", "Rule Engine"] },
       { id := "ae-router", name := "AE Router", type := .Classifier
       , summary := "Routes high-scoring leads (>80) to an Account Executive"
       , inputs := [{ fromId := some ("lead-scorer"), name := "scored_lead" }]
       , outputs := [{ name := "routed_lead" }]
       , suggestedTools := ["Assignment Rules", "Round Robin"]
       , notes := ["Leads with score <= 80 go to nurture sequence"] },
       { id := "crm-creator", name := "CRM Record Creator", type := .ToolExecutor
       , summary := "Creates or updates a lead record in the CRM"
       , inputs := [{ fromId := some ("ae-router"), name := "routed_lead" }]
       , outputs := [{ name := "crm_record" }]
       , suggestedTools := ["Salesforce API", "HubSpot API"] },
       { id := "intro-emailer", name := "Personalized Intro Emailer", type := .Generator
       , summary := "Generates and sends a personalized intro email to the lead"
       , inputs := [{ fromId := some ("crm-creator"), name := "crm_record" }]
       , outputs := [{ name := "email_sent" }]
       , suggestedTools := ["Email Template Engine", "SendGrid"] }]
  , edges :=
      [{ fromId := "form-collector", toId := "clearbit-enricher", data := "lead_submission" },
       { fromId := "clearbit-enricher", toId := "lead-scorer", data := "enriched_lead" },
       { fromId := "lead-scorer", toId := "ae-router", data := "scored_lead" },
       { fromId := "ae-router", toId := "crm-creator", data := "routed_lead" },
       { fromId := "crm-creator", toId := "intro-emailer", data := "crm_record" }]
  , dataSchemas :=
      [("lead_submission", ["email", "name", "company", "message"]),
       ("enriched_lead", ["email", "name", "company", "title", "employees", "industry"]),
       ("scored_lead", ["lead", "score", "score_breakdown"]),
       ("crm_record", ["id", "url", "owner"])] }

/-- The "weekly-report" canned template (technical fields). -/
def weeklyReportTemplate : AgentPlan :=
  { version := "0.1"
  , title := "Weekly Report Generator"
  , description := "Fetch metrics from analytics and billing, summarize key changes, generate a short natural-language report, and email it to the team."
  , agents :=
      [{ id := "analytics-fetcher", name := "Analytics Metrics Fetcher", type := .Retriever
       , summary := "Fetches weekly metrics from the analytics platform"
       , inputs := [{ fromId := none, name := "analytics_api" }]
       , outputs := [{ name := "analytics_data" }]
       , suggestedTools := ["Google Analytics API", "Mixpanel API"] },
       { id := "billing-fetcher", name := "Billing Metrics Fetcher", type := .Retriever
       , summary := "Fetches revenue and billing data from the billing system"
       , inputs := [{ fromId := none, name := "billing_api" }]
       , outputs := [{ name := "billing_data" }]
       , suggestedTools := ["Stripe API", "Chargebee API"] },
       { id := "change-summarizer", name := "Change Summarizer", type := .Extractor
       , summary := "Identifies and summarizes key changes week-over-week"
       , inputs := [{ fromId := some ("analytics-fetcher"), name := "analytics_data" },
                    { fromId := some ("billing-fetcher"), name := "billing_data" }]
       , outputs := [{ name := "change_summary" }]
       , suggestedTools := ["Data Diff Tool", "Statistical Analyzer"] },
       { id := "report-generator", name := "Report Generator", type := .Generator
       , summary := "Generates a natural-language weekly report with key highlights"
       , inputs := [{ fromId := some ("change-summarizer"), name := "change_summary" }]
       , outputs := [{ name := "report_draft" }]
       , suggestedTools := ["LLM", "Template Engine"] },
       { id := "team-emailer", name := "Team Emailer", type := .Notifier
       , summary := "Sends the generated report to the team via email"
       , inputs := [{ fromId := some ("report-generator"), name := "report_draft" }]
       , outputs := [{ name := "email_sent" }]
       , suggestedTools := ["SendGrid", "SES"] }]
  , edges :=
      [{ fromId := "analytics-fetcher", toId := "change-summarizer", data := "analytics_data" },
       { fromId := "billing-fetcher", toId := "change-summarizer", data := "billing_data" },
       { fromId := "change-summarizer", toId := "report-generator", data := "change_summary" },
       { fromId := "report-generator", toId := "team-emailer", data := "report_draft" }]
  , dataSchemas :=
      [("analytics_data", ["pageviews", "sessions", "users", "conversion_rate"]),
       ("billing_data", ["mrr", "churn", "new_revenue", "renewals"]),
       ("change_summary", ["highlights", "concerns", "trends"]),
       ("report_draft", ["title", "body", "bullet_points"])] }

/-- The canned template registry, in source order. -/
def CANNED_TEMPLATES : List (String × AgentPlan) :=
  [("support-triage", supportTriageTemplate),
   ("lead-qualification", leadQualificationTemplate),
   ("weekly-report", weeklyReportTemplate)]

/-- `getTemplate` from `lib/planner.ts`: registry lookup, `none` if unknown. -/
def getTemplate (templateId : String) : Option AgentPlan :=
  (CANNED_TEMPLATES.find? (fun kv => kv.1 == templateId)).map (fun kv => kv.2)

-- ─────────────────────────────────────────────────────────────────────────────
-- Planner (`planFromDescription` in `lib/planner.ts`)
-- ─────────────────────────────────────────────────────────────────────────────

/-- The minimal one-node fallback plan returned for zero usable steps. -/
def minimalPlan (description : String) : AgentPlan :=
  { version := "0.1"
  , title := "Custom Workflow"
  , description := description
  , agents :=
      [{ id := "orchestrator", name := "Workflow Orchestrator", type := .Orchestrator
       , summary := "Coordinates the workflow execution"
       , inputs := [{ fromId := none, name := "input_data" }]
       , outputs := [{ name := "output_data" }]
       , suggestedTools := ["Workflow Engine"] }]
  , edges := [] }

/-- Id of the (1-based) i-th chain agent: `agent-${i}`. -/
def chainAgentId (i : Nat) : String := ("agent-") ++ natToDecStr i

/-- The agent built for step `i` (0-based) of the free-text chain, exactly as
in the planner loop body. -/
def chainAgent (steps : List String) (i : Nat) : AgentNode :=
  let step := steps.getD i ""
  let ty := inferAgentType step
  { id := chainAgentId (i + 1)
  , name := generateAgentName step ty.1
  , type := ty.1
  , summary := capitalize (jsTrim step)
  , inputs :=
      if i = 0 then [{ fromId := none, name := "input_data" }]
      else [{ fromId := some (chainAgentId i)
            , name := if steps.getD (i - 1) "" = "" then "data"
                      else generateOutputName (steps.getD (i - 1) "") (i - 1) }]
  , outputs := [{ name := generateOutputName step i }]
  , suggestedTools := ty.2 }

/-- The edge pushed at loop index `i = j+1`: agent `j+1` to agent `j+2`
(1-based ids), carrying the producing step output name. -/
def chainEdge (steps : List String) (j : Nat) : EdgeSpec :=
  { fromId := chainAgentId (j + 1)
  , toId := chainAgentId (j + 2)
  , data := generateOutputName (steps.getD j "") j }

/-- JS record assignment `r[k] = v`: overwrite in place or append. -/
def recordSet (r : List (String × List String)) (k : String) (v : List String) :
    List (String × List String) :=
  if r.any (fun kv => kv.1 == k) then
    r.map (fun kv => if kv.1 == k then (kv.1, v) else kv)
  else r ++ [(k, v)]

/-- The `dataSchemas` record accumulated by the planner loop. -/
def chainSchemas (steps : List String) : List (String × List String) :=
  (List.range steps.length).foldl
    (fun r i =>
      recordSet r (generateOutputName (steps.getD i "") i)
        (generateFields (steps.getD i "") (inferAgentType (steps.getD i "")).1)) []

/-- The plan assembled from a non-empty list of parsed steps. -/
def planFromSteps (description : String) (steps : List String) : AgentPlan :=
  { version := "0.1"
  , title := generateTitle description
  , description := description
  , agents := (List.range steps.length).map (chainAgent steps)
  , edges := (List.range (steps.length - 1)).map (chainEdge steps)
  , dataSchemas := chainSchemas steps }

/-- `planFromDescription` from `lib/planner.ts`: canned-template keyword
short-circuit in fixed priority order, then step parsing, then either the
minimal fallback plan or the linear chain plan. -/
def planFromDescription (description : String) : AgentPlan :=
  let lowerDesc := jsToLower description
  if jsIncludes lowerDesc ("support") && jsIncludes lowerDesc ("triage") then
    supportTriageTemplate
  else if jsIncludes lowerDesc ("lead") && jsIncludes lowerDesc ("qualif") then
    leadQualificationTemplate
  else if jsIncludes lowerDesc ("weekly") && jsIncludes lowerDesc ("report") then
    weeklyReportTemplate
  else
    let steps := parseSteps description
    if steps.length = 0 then minimalPlan description
    else planFromSteps description steps

-- ─────────────────────────────────────────────────────────────────────────────
-- Validator (`validatePlan` in `lib/spec.ts`)
-- ─────────────────────────────────────────────────────────────────────────────

/-- JS `Set.prototype.add`: append unless already present (insertion order). -/
def jsSetAdd {α : Type} [BEq α] (l : List α) (x : α) : List α :=
  if l.contains x then l else l ++ [x]

/-- A JS `Set` built from a list (deduplicated, first-occurrence order). -/
def jsSetOfList {α : Type} [BEq α] (xs : List α) : List α := xs.foldl jsSetAdd []

/-- Loop body of validation step 1, for one edge. -/
def edgeRefStep (agentIds : List String) (errs : List String) (e : EdgeSpec) : List String :=
  let errs := if agentIds.contains e.fromId then errs
    else errs ++ [("Edge references unknown \x27from\x27 agent: ") ++ e.fromId]
  if agentIds.contains e.toId then errs
  else errs ++ [("Edge references unknown \x27to\x27 agent: ") ++ e.toId]

/-- Validation step 1: edges referencing unknown agents. -/
def edgeRefErrors (agentIds : List String) (edges : List EdgeSpec) : List String :=
  edges.foldl (edgeRefStep agentIds) []

/-- Loop body of validation step 2, for one input of agent `a` (a JS-falsy
empty `from` string is skipped by the `input.from &&` guard). -/
def inputRefStep (agentIds : List String) (a : AgentNode) (errs : List String)
    (inp : AgentInput) : List String :=
  match inp.fromId with
  | some f =>
    if f = "" then errs
    else if agentIds.contains f then errs
    else errs ++ [("Agent \x27") ++ a.name ++ ("\x27 input \x27") ++ inp.name
          ++ ("\x27 references unknown agent: ") ++ f]
  | none => errs

/-- Validation step 2: non-root inputs referencing unknown agents. -/
def inputRefErrors (agentIds : List String) (agents : List AgentNode) : List String :=
  agents.foldl (fun errs a => a.inputs.foldl (inputRefStep agentIds a) errs) []

/-- The `${e.from}:${e.data}` key set of consumed outputs. -/
def consumedOutputKeys (edges : List EdgeSpec) : List String :=
  jsSetOfList (edges.map (fun e => e.fromId ++ (":") ++ e.data))

/-- Loop body of validation step 3, for one output slot of agent `a`. -/
def orphanStep (plan : AgentPlan) (consumed : List String) (a : AgentNode)
    (ws : List String) (o : AgentOutput) : List String :=
  if consumed.contains (a.id ++ (":") ++ o.name) then ws
  else if plan.edges.any (fun e => e.fromId == a.id) then
    ws ++ [("Agent \x27") ++ a.name ++ ("\x27 output \x27") ++ o.name
           ++ ("\x27 is not consumed by any edge")]
  else ws

/-- Validation step 3: one warning per unconsumed output slot of an agent
that has at least one outgoing edge. -/
def orphanWarnings (plan : AgentPlan) (consumed : List String) : List String :=
  plan.agents.foldl (fun ws a => a.outputs.foldl (orphanStep plan consumed a) ws) []

/-- Adjacency lookup (`adjacency.get(node) || []`). -/
def adjGet (adj : List (String × List String)) (k : String) : List String :=
  (((adj.find? (fun kv => kv.1 == k)).map (fun kv => kv.2))).getD []

/-- `adjacency.get(edge.from)?.push(edge.to)`: append when the key exists. -/
def adjPush (adj : List (String × List String)) (k v : String) :
    List (String × List String) :=
  adj.map (fun kv => if kv.1 == k then (kv.1, kv.2 ++ [v]) else kv)

/-- The adjacency map: every known id mapped to `[]`, then edge targets pushed. -/
def buildAdjacency (agentIds : List String) (edges : List EdgeSpec) :
    List (String × List String) :=
  edges.foldl (fun adj e => adjPush adj e.fromId e.toId)
    (agentIds.map (fun i => (i, ([] : List String))))

/-- The neighbor loop of `hasCycle`, abstracted over the recursive call:
visited neighbors on the recursion stack signal a cycle; unvisited neighbors
are explored through `rec`. -/
def dfsNeighbors (rec : String → List String → List String → List String × Bool) :
    List String → List String → List String → List String × Bool
  | [], visited, _ => (visited, false)
  | nb :: rest, visited, recStack =>
    if visited.contains nb then
      if recStack.contains nb then (visited, true)
      else dfsNeighbors rec rest visited recStack
    else
      match rec nb visited recStack with
      | (visited2, true) => (visited2, true)
      | (visited2, false) => dfsNeighbors rec rest visited2 recStack

/-- The recursive `hasCycle` DFS of `validatePlan`, with explicit fuel
decremented per nesting level (the caller always supplies enough: the
recursion depth is bounded by the number of distinct nodes, as each nested
call is on an unvisited node).  Returns the updated visited set and the cycle
flag; the recursion-stack set is threaded functionally, which models
`recStack.delete(node)` on exit. -/
def hasCycleDfs (adj : List (String × List String)) :
    Nat → String → List String → List String → List String × Bool
  | 0, _, visited, _ => (visited, false)
  | fuel + 1, node, visited, recStack =>
    dfsNeighbors (hasCycleDfs adj fuel) (adjGet adj node)
      (jsSetAdd visited node) (jsSetAdd recStack node)

/-- The outer loop over all agent ids: DFS from every unvisited node,
stopping at the first cycle found. -/
def detectCycleAux (adj : List (String × List String)) (fuel : Nat)
    (ids : List String) (visited : List String) : Bool :=
  match ids with
  | [] => false
  | id :: rest =>
    if visited.contains id then detectCycleAux adj fuel rest visited
    else
      match hasCycleDfs adj fuel id visited [] with
      | (_, true) => true
      | (v2, false) => detectCycleAux adj fuel rest v2

/-- The single cycle error message of `validatePlan`. -/
def cycleErrorMsg : String := "The agent graph contains a cycle, which is not allowed"

/-- `validatePlan` from `lib/spec.ts`. -/
def validatePlan (plan : AgentPlan) : ValidationResult :=
  let agentIds := jsSetOfList (plan.agents.map (fun a => a.id))
  let errs := edgeRefErrors agentIds plan.edges
    ++ inputRefErrors agentIds plan.agents
  let warnings := orphanWarnings plan (consumedOutputKeys plan.edges)
  let adj := buildAdjacency agentIds plan.edges
  let errors :=
    if detectCycleAux adj (agentIds.length + 1) agentIds [] then
      errs ++ [cycleErrorMsg]
    else errs
  { ok := errors.isEmpty, errors := errors, warnings := warnings }

-- ─────────────────────────────────────────────────────────────────────────────
-- Layout engine (`planToReactFlow` in `lib/layout.ts`)
-- ─────────────────────────────────────────────────────────────────────────────

/-- `AGENT_TYPE_COLORS` from `lib/spec.ts`. -/
def AGENT_TYPE_COLORS : AgentType → String
  | .Orchestrator => "#805AD5"
  | .Retriever => "#3182CE"
  | .Extractor => "#38A169"
  | .Classifier => "#DD6B20"
  | .Generator => "#D53F8C"
  | .ToolExecutor => "#319795"
  | .HumanGate => "#E53E3E"
  | .Notifier => "#718096"

def NODE_WIDTH : Int := 280
def NODE_HEIGHT : Int := 100
def HORIZONTAL_GAP : Int := 100
def VERTICAL_GAP : Int := 40

/-- JS `Map.prototype.get` on an insertion-ordered association list. -/
def jsMapGet {α β : Type} [BEq α] (m : List (α × β)) (k : α) : Option β :=
  (m.find? (fun kv => kv.1 == k)).map (fun kv => kv.2)

/-- JS `Map.prototype.set`: overwrite in place, or append a new key. -/
def jsMapSet {α β : Type} [BEq α] (m : List (α × β)) (k : α) (v : β) : List (α × β) :=
  if m.any (fun kv => kv.1 == k) then
    m.map (fun kv => if kv.1 == k then (kv.1, v) else kv)
  else m ++ [(k, v)]

/-- A React Flow node as built by the layout engine (the `data` payload is
reduced to the archetype color; the spread agent fields are the agent itself,
recoverable through `id`). -/
structure RFNode where
  id : String
  nodeType : String
  x : Int
  y : Int
  color : String
deriving DecidableEq, Repr

/-- A React Flow edge as built by the layout engine (styling constants omitted). -/
structure RFEdge where
  id : String
  source : String
  target : String
  label : String
deriving DecidableEq, Repr

/-- First initialization loop: adjacency `[]` and in-degree `0` per agent. -/
def layoutInit (agents : List AgentNode) :
    List (String × List String) × List (String × Int) :=
  agents.foldl (fun st a => (jsMapSet st.1 a.id [], jsMapSet st.2 a.id 0)) ([], [])

/-- Second loop: push edge targets into adjacency (known sources only) and
increment the target in-degree (`(inDegree.get(edge.to) || 0) + 1`). -/
def layoutEdgeFold (st : List (String × List String) × List (String × Int))
    (edges : List EdgeSpec) :
    List (String × List String) × List (String × Int) :=
  edges.foldl (fun st e =>
    (adjPush st.1 e.fromId e.toId,
     jsMapSet st.2 e.toId ((jsMapGet st.2 e.toId).getD 0 + 1))) st

/-- Seeding: every agent with in-degree 0 is enqueued at level 0 (agent order). -/
def seedRoots (agents : List AgentNode) (ind : List (String × Int)) :
    List String × List (String × Nat) :=
  agents.foldl (fun st a =>
    if (jsMapGet ind a.id).getD 0 = 0 then (st.1 ++ [a.id], jsMapSet st.2 a.id 0)
    else st) ([], [])

/-- The FIFO relaxation loop of the layout engine, with fuel (each node is
enqueued at most once per eventual zero crossing, so
`agents.length + edges.length + 1` steps always suffice). -/
def kahnRun (adj : List (String × List String)) (fuel : Nat) (queue : List String)
    (levels : List (String × Nat)) (ind : List (String × Int)) : List (String × Nat) :=
  match fuel, queue with
  | 0, _ => levels
  | _, [] => levels
  | fuel' + 1, cur :: rest =>
    let curLevel := (jsMapGet levels cur).getD 0
    let st := (adjGet adj cur).foldl
      (fun (st : List (String × Nat) × List (String × Int) × List String) nb =>
        let newDeg := (jsMapGet st.2.1 nb).getD 0 - 1
        let ind2 := jsMapSet st.2.1 nb newDeg
        let ex := (jsMapGet st.1 nb).getD 0
        let lv2 := jsMapSet st.1 nb (max ex (curLevel + 1))
        let q2 := if newDeg = 0 then st.2.2 ++ [nb] else st.2.2
        (lv2, ind2, q2)) (levels, ind, [])
    kahnRun adj fuel' (rest ++ st.2.2) st.1 st.2.1

/-- The final levels map computed by the layout engine for a plan. -/
def layoutLevels (plan : AgentPlan) : List (String × Nat) :=
  let st0 := layoutInit plan.agents
  let st := layoutEdgeFold st0 plan.edges
  let seed := seedRoots plan.agents st.2
  kahnRun st.1 (plan.agents.length + plan.edges.length + 1) seed.1 seed.2 st.2

/-- One step of the grouping loop: `levelGroups.get(level)!.push(agent)`,
creating the key on first sight. -/
def levelGroupStep (levels : List (String × Nat))
    (groups : List (Nat × List AgentNode)) (a : AgentNode) :
    List (Nat × List AgentNode) :=
  let lv := (jsMapGet levels a.id).getD 0
  if groups.any (fun g => g.1 == lv) then
    groups.map (fun g => if g.1 == lv then (g.1, g.2 ++ [a]) else g)
  else groups ++ [(lv, [a])]

/-- Grouping of agents by assigned level (`levels.get(agent.id) || 0`),
in agent-declaration order, level keys in first-seen order. -/
def levelGroupsOf (plan : AgentPlan) (levels : List (String × Nat)) :
    List (Nat × List AgentNode) :=
  plan.agents.foldl (levelGroupStep levels) []

/-- The node built for the agent at position `idx` of the `n` agents in the
column for `lv`: `x = level*(width+hgap)`,
`y = -(n*height + (n-1)*vgap)/2 + idx*(height+vgap)`. -/
def mkLayoutNode (lv : Nat) (n : Nat) (idx : Nat) (a : AgentNode) : RFNode :=
  { id := a.id
  , nodeType := "agentNode"
  , x := (lv : Int) * (NODE_WIDTH + HORIZONTAL_GAP)
  , y := -((n : Int) * NODE_HEIGHT + ((n : Int) - 1) * VERTICAL_GAP) / 2
         + (idx : Int) * (NODE_HEIGHT + VERTICAL_GAP)
  , color := AGENT_TYPE_COLORS a.type }

/-- `edge.data.replace(/_/g, " ")`. -/
def underscoresToSpaces (s : String) : String :=
  ⟨s.data.map (fun c => if c = '_' then ' ' else c)⟩

/-- `planToReactFlow` from `lib/layout.ts`: positioned nodes and styled edges. -/
def planToReactFlow (plan : AgentPlan) : List RFNode × List RFEdge :=
  let levels := layoutLevels plan
  let groups := levelGroupsOf plan levels
  let nodes := groups.flatMap (fun g =>
    g.2.enum.map (fun ia => mkLayoutNode g.1 g.2.length ia.1 ia.2))
  let edges := plan.edges.enum.map (fun ie =>
    { id := ("edge-") ++ natToDecStr ie.1
    , source := ie.2.fromId
    , target := ie.2.toId
    , label := underscoresToSpaces ie.2.data })
  (nodes, edges)

-- ─────────────────────────────────────────────────────────────────────────────
-- Mermaid exporter (`planToMermaid` in `lib/mermaid.ts`)
-- ─────────────────────────────────────────────────────────────────────────────

/-- `sanitizeId`: replace every character outside `[A-Za-z0-9]` with `_`. -/
def sanitizeId (id : String) : String :=
  ⟨id.data.map (fun c => if c.isAlpha || c.isDigit then c else '_')⟩

/-- `truncate`: cap a string at `maxLength` characters, ellipsis-suffixed. -/
def truncate (str : String) (maxLength : Nat) : String :=
  if str.data.length ≤ maxLength then str
  else ⟨str.data.take (maxLength - 3)⟩ ++ ("...")

/-- `planToMermaid` from `lib/mermaid.ts`.  (The source also builds a
`typeStyles` map that it never reads; that dead computation is omitted.)
Note the node label interpolates `agent.name` and the truncated summary
verbatim, with no escaping of quotes or brackets. -/
def planToMermaid (plan : AgentPlan) : String :=
  let lines : List String :=
    [("flowchart LR"), ""]
    ++ [("  %% Nodes")]
    ++ plan.agents.map (fun a =>
        ("  ") ++ sanitizeId a.id ++ ("[\"") ++ a.name ++ ("\\n")
          ++ truncate a.summary 40 ++ ("\"]"))
    ++ [""]
    ++ [("  %% Edges")]
    ++ plan.edges.map (fun e =>
        ("  ") ++ sanitizeId e.fromId ++ (" -->|") ++ underscoresToSpaces e.data
          ++ ("| ") ++ sanitizeId e.toId)
    ++ [""]
    ++ [("  %% Styling")]
    ++ plan.agents.map (fun a =>
        ("  style ") ++ sanitizeId a.id ++ (" fill:") ++ AGENT_TYPE_COLORS a.type
          ++ (",color:#fff"))
  String.intercalate ("\n") lines

-- ─────────────────────────────────────────────────────────────────────────────
-- Claim-side (specification) definitions and concrete example plans
-- ─────────────────────────────────────────────────────────────────────────────

/-- The canned-template short-circuit of `planFromDescription`, as a lookup
(same conditions, in the same priority order). -/
def cannedTemplateFor (description : String) : Option AgentPlan :=
  let lowerDesc := jsToLower description
  if jsIncludes lowerDesc ("support") && jsIncludes lowerDesc ("triage") then
    some supportTriageTemplate
  else if jsIncludes lowerDesc ("lead") && jsIncludes lowerDesc ("qualif") then
    some leadQualificationTemplate
  else if jsIncludes lowerDesc ("weekly") && jsIncludes lowerDesc ("report") then
    some weeklyReportTemplate
  else none

/-- Specification of the orphan-output warnings, following the claim wording:
for each agent with at least one outgoing edge, one warning per output slot
whose name is never the `data` field of an outgoing edge of that same agent
(agents with no outgoing edges are exempt). -/
def orphanWarningsSpec (plan : AgentPlan) : List String :=
  plan.agents.flatMap (fun a =>
    if plan.edges.any (fun e => e.fromId == a.id) then
      (a.outputs.filter (fun o =>
        !(plan.edges.any (fun e => e.fromId == a.id && e.data == o.name)))).map
        (fun o => ("Agent \x27") ++ a.name ++ ("\x27 output \x27") ++ o.name
               ++ ("\x27 is not consumed by any edge"))
    else [])

/-- The level the layout engine records for an id, with the `|| 0` default
applied when grouping. -/
def levelOf (plan : AgentPlan) (id : String) : Nat :=
  (jsMapGet (layoutLevels plan) id).getD 0

/-- The column of agents the claim expects at a given level: the agents whose
recorded (or defaulted) level is that value, in plan-declaration order. -/
def levelColumnSpec (plan : AgentPlan) (lv : Nat) : List AgentNode :=
  plan.agents.filter (fun a => levelOf plan a.id == lv)

/-- A plan whose colon-bearing agent id collides with the `${from}:${data}`
consumed-output keys: agent `a:b` has an unconsumed output `c`, but the edge
from agent `a` with data `b:c` produces the same key `a:b:c`. -/
def colonKeyPlan : AgentPlan :=
  { version := "0.1", title := "colon", description := "colon key collision",
    agents :=
      [{ id := "a:b", name := "X", type := .Generator, summary := "s",
         inputs := [], outputs := [{ name := "c" }] },
       { id := "a", name := "Y", type := .Generator, summary := "s",
         inputs := [], outputs := [] },
       { id := "z", name := "Z", type := .Generator, summary := "s",
         inputs := [], outputs := [] }],
    edges := [{ fromId := "a:b", toId := "a", data := "d" },
              { fromId := "a", toId := "z", data := "b:c" }] }

/-- A two-agent plan whose graph is a 2-cycle: both in-degrees stay at 1, so
neither agent is ever enqueued by the layout engine. -/
def twoCyclePlan : AgentPlan :=
  { version := "0.1", title := "cyc", description := "two-node cycle",
    agents :=
      [{ id := "A", name := "A", type := .Generator, summary := "s",
         inputs := [], outputs := [] },
       { id := "B", name := "B", type := .Generator, summary := "s",
         inputs := [], outputs := [] }],
    edges := [{ fromId := "A", toId := "B", data := "x" },
              { fromId := "B", toId := "A", data := "y" }] }

/-- A single isolated agent whose id, name and summary carry the special
characters of the diagram-exporter claim. -/
def mermaidQuotePlan : AgentPlan :=
  { version := "0.1", title := "Mermaid", description := "quote demo",
    agents :=
      [{ id := "My/Agent", name := "Say \"hi\"", type := .Generator,
         summary := "uses [brackets]", inputs := [], outputs := [] }],
    edges := [] }

/-- The cycle flag the validator computes for a plan (the condition guarding
the cycle error inside `validatePlan`). -/
def planCycleFlag (p : AgentPlan) : Bool :=
  let agentIds := jsSetOfList (p.agents.map (fun a => a.id))
  detectCycleAux (buildAdjacency agentIds p.edges) (agentIds.length + 1) agentIds []

/-- Closed form of the level-grouping fold: the first-seen-order list of
levels, each paired with the declaration-ordered agents at that level. -/
def levelGroupsClosed (levels : List (String × Nat)) (pre : List AgentNode) :
    List (Nat × List AgentNode) :=
  (jsSetOfList (pre.map (fun a => (jsMapGet levels a.id).getD 0))).map
    (fun lv => (lv, pre.filter (fun a => ((jsMapGet levels a.id).getD 0) == lv)))

/-- Characters able to begin a match of one of the five delimiter regexes of
`parseSteps`: a comma, a period, or whitespace. -/
def delimStart (c : Char) : Bool := c = ',' || c = '.' || isJsWs c

/-- Characters able to appear anywhere inside a match of one of the five
delimiter regexes: a start character or a case variant of the letters of
"and" / "then". -/
def delimChar (c : Char) : Bool :=
  delimStart c || (['a', 'n', 'd', 't', 'h', 'e'] : List Char).contains (Char.toLower c)

/-- A matcher never claims more characters than the input has. -/
def MatcherBound (m : List Char → Option Nat) : Prop :=
  ∀ s n, m s = some n → n ≤ s.length

/-- Every character inside a claimed match satisfies `P`. -/
def MatcherChars (m : List Char → Option Nat) (P : Char → Bool) : Prop :=
  ∀ s n i, m s = some n → i < n → ∀ h : i < s.length, P (s.get ⟨i, h⟩) = true

/-- The first character of any (nonempty-input) match satisfies `P`. -/
def MatcherStart (m : List Char → Option Nat) (P : Char → Bool) : Prop :=
  ∀ c cs n, m (c :: cs) = some n → P c = true

/-- Decimal value of a digit character (inverse of `digitChar`). -/
def digitVal (c : Char) : Nat :=
  if c = '0' then 0 else if c = '1' then 1 else if c = '2' then 2
  else if c = '3' then 3 else if c = '4' then 4 else if c = '5' then 5
  else if c = '6' then 6 else if c = '7' then 7 else if c = '8' then 8 else 9

/-- Value of a little-endian digit list (Horner form), for the round-trip
proof that decimal rendering is injective. -/
def decValRev : List Char → Nat
  | [] => 0
  | c :: cs => digitVal c + 10 * decValRev cs

/-- The per-output-slot contribution of the orphan-warning loop body (the list
appended by one `orphanStep` call). -/
def orphanGate (plan : AgentPlan) (consumed : List String) (a : AgentNode)
    (o : AgentOutput) : List String :=
  if consumed.contains (a.id ++ (":") ++ o.name) then []
  else if plan.edges.any (fun e => e.fromId == a.id) then
    [("Agent \x27") ++ a.name ++ ("\x27 output \x27") ++ o.name
     ++ ("\x27 is not consumed by any edge")]
  else []

-- ═════════════════════════════════════════════════════════════════════════════
-- Theorems
-- ═════════════════════════════════════════════════════════════════════════════

/-- The `ok` flag of a validation result is by construction the emptiness of
its error list. -/
theorem validatePlan_ok_eq (p : AgentPlan) :
    (validatePlan p).ok = (validatePlan p).errors.isEmpty := rfl

/-- Claim C9: for every plan, `validatePlan` returns `ok` true exactly when
the error list is empty, and `ok` is a function of the error list alone, so
the warnings never affect it. -/
theorem c9_ok_iff_errors_empty :
    (∀ p : AgentPlan, (validatePlan p).ok = true ↔ (validatePlan p).errors = []) ∧
    (∀ p q : AgentPlan, (validatePlan p).errors = (validatePlan q).errors →
      (validatePlan p).ok = (validatePlan q).ok) := by
  constructor
  · intro p
    rw [validatePlan_ok_eq]
    exact List.isEmpty_iff
  · intro p q h
    rw [validatePlan_ok_eq, validatePlan_ok_eq, h]

/-- Witness for C9 at a concrete plan. -/
theorem c9_witness :
    (validatePlan (minimalPlan ("w"))).ok = true ∧
    (validatePlan (minimalPlan ("w"))).ok = (validatePlan (minimalPlan ("w"))).ok :=
  ⟨(c9_ok_iff_errors_empty.1 _).mpr (by decide),
   c9_ok_iff_errors_empty.2 _ _ rfl⟩

/-- Claim C1: for the input "Fetch data, then extract fields, then notify
team.", the planner yields exactly 3 agents typed Retriever, Extractor,
Notifier in order, exactly 2 edges, each edge carrying the sole output slot
name of its producing agent, and each non-first agent consuming exactly its
predecessor output slot from its predecessor id. -/
theorem c1_chain_structure :
    (planFromDescription ("Fetch data, then extract fields, then notify team.")).agents.length = 3 ∧
    (planFromDescription ("Fetch data, then extract fields, then notify team.")).agents.map
      (fun a => a.type) = [.Retriever, .Extractor, .Notifier] ∧
    (planFromDescription ("Fetch data, then extract fields, then notify team.")).edges.length = 2 ∧
    (∀ e ∈ (planFromDescription ("Fetch data, then extract fields, then notify team.")).edges,
      ∃ a ∈ (planFromDescription ("Fetch data, then extract fields, then notify team.")).agents,
        a.id = e.fromId ∧ a.outputs.map (fun o => o.name) = [e.data]) ∧
    (∀ pr ∈ (planFromDescription ("Fetch data, then extract fields, then notify team.")).agents.zip
        ((planFromDescription ("Fetch data, then extract fields, then notify team.")).agents.drop 1),
      pr.1.outputs.length = 1 ∧
      pr.2.inputs.map (fun i => (i.fromId, i.name)) =
        [(some pr.1.id, (pr.1.outputs.headD { name := "" }).name)]) := by
  decide

/-- Claim C5, counterexample: when the input matches a canned-template keyword
pair, the returned plan keeps the canned description, not the input. -/
theorem c5_counterexample :
    ¬ ((planFromDescription ("support triage")).description = "support triage") := by
  decide

/-- Claim C5 (amended): the returned plan's description is the original input
except in the canned-template branch, where it is the template's own fixed
description. -/
theorem c5_description_amended (d : String) :
    (planFromDescription d).description =
      ((cannedTemplateFor d).map (fun t => t.description)).getD d := by
  unfold planFromDescription cannedTemplateFor
  by_cases h1 : (jsIncludes (jsToLower d) ("support") && jsIncludes (jsToLower d) ("triage")) = true
  · simp [h1]
  · simp only [h1]
    by_cases h2 : (jsIncludes (jsToLower d) ("lead") && jsIncludes (jsToLower d) ("qualif")) = true
    · simp [h1, h2]
    · by_cases h3 : (jsIncludes (jsToLower d) ("weekly") && jsIncludes (jsToLower d) ("report")) = true
      · simp [h1, h2, h3]
      · by_cases h4 : (parseSteps d).length = 0
        · simp [h1, h2, h3, h4, minimalPlan]
        · simp [h1, h2, h3, h4, planFromSteps]

/-- Claim C7: at the failing input (id "My/Agent", a quote in the name,
brackets in the summary) the exporter does sanitize the identifier to
My_Agent, but interpolates name and summary verbatim, leaving an unescaped
quote and unescaped brackets inside the emitted label text. -/
theorem c7_mermaid_eval :
    sanitizeId ("My/Agent") = "My_Agent" ∧
    planToMermaid mermaidQuotePlan =
      "flowchart LR\n\n  %% Nodes\n  My_Agent[\"Say \"hi\"\\nuses [brackets]\"]\n\n  %% Edges\n\n  %% Styling\n  style My_Agent fill:#D53F8C,color:#fff" := by
  decide

/-- Claim C6, counterexample: in the two-agent cycle both in-degrees stay at 1
and neither agent is ever enqueued or receives a levels entry, yet both
receive defaulted level-0 positions in the layout output. -/
theorem c6_counterexample :
    jsMapGet (layoutLevels twoCyclePlan) ("A") = none ∧
    jsMapGet (layoutLevels twoCyclePlan) ("B") = none ∧
    (planToReactFlow twoCyclePlan).1.map (fun nd => (nd.id, nd.x, nd.y)) =
      [("A", 0, -120), ("B", 0, 20)] := by
  decide

/-- Claim C4, counterexample: with a colon-bearing agent id the consumed-key
set collides (`a:b` with output `c` against edge `a` with data `b:c`), so the
validator emits no warning although the claim requires one for the unconsumed
output `c`. -/
theorem c4_counterexample :
    ¬ ((validatePlan colonKeyPlan).warnings = orphanWarningsSpec colonKeyPlan) := by
  decide

/-- Every string produced by the input-reference check starts with "Agent '".
Stated over the inner fold with a general accumulator. -/
theorem inputRefStep_fold_mem (ids : List String) (a : AgentNode) :
    ∀ (inputs : List AgentInput) (acc : List String) (x : String),
      x ∈ inputs.foldl (inputRefStep ids a) acc →
      x ∈ acc ∨ ∃ s, x = ("Agent \x27") ++ s := by
  intro inputs
  induction inputs with
  | nil => intro acc x h; exact Or.inl h
  | cons inp rest ih =>
    intro acc x h
    simp only [List.foldl_cons] at h
    rcases ih _ x h with h2 | h2
    · obtain ⟨fi, ni⟩ := inp
      rcases fi with _ | f
      · exact Or.inl (by simpa [inputRefStep] using h2)
      · by_cases he : f = ""
        · exact Or.inl (by simpa [inputRefStep, he] using h2)
        · by_cases hcf : f ∈ ids
          · exact Or.inl (by simpa [inputRefStep, he, hcf] using h2)
          · simp [inputRefStep, he, hcf] at h2
            rcases h2 with h3 | h3
            · exact Or.inl h3
            · refine Or.inr ⟨a.name ++ (("\x27 input \x27") ++ (ni
                ++ (("\x27 references unknown agent: ") ++ f))), ?_⟩
              rw [h3]
              simp [String.append_assoc]
    · exact Or.inr h2

/-- Every string in `inputRefErrors` starts with "Agent '". -/
theorem mem_inputRefErrors (ids : List String) :
    ∀ (agents : List AgentNode) (acc : List String) (x : String),
      x ∈ agents.foldl (fun errs a => a.inputs.foldl (inputRefStep ids a) errs) acc →
      x ∈ acc ∨ ∃ s, x = ("Agent \x27") ++ s := by
  intro agents
  induction agents with
  | nil => intro acc x h; exact Or.inl h
  | cons a rest ih =>
    intro acc x h
    simp only [List.foldl_cons] at h
    rcases ih _ x h with h2 | h2
    · exact inputRefStep_fold_mem ids a _ _ _ h2
    · exact Or.inr h2

/-- When every (nonempty) input reference is a known id, the inner fold of the
input-reference check adds nothing. -/
theorem inputRefStep_fold_nil (ids : List String) (a : AgentNode) :
    ∀ (inputs : List AgentInput) (acc : List String),
      (∀ inp ∈ inputs, ∀ f, inp.fromId = some f → f ≠ "" → ids.contains f = true) →
      inputs.foldl (inputRefStep ids a) acc = acc := by
  intro inputs
  induction inputs with
  | nil => intro acc _; rfl
  | cons inp rest ih =>
    intro acc h
    simp only [List.foldl_cons]
    have hstep : inputRefStep ids a acc inp = acc := by
      have hin := h inp (List.mem_cons_self inp rest)
      obtain ⟨fi, ni⟩ := inp
      rcases fi with _ | f
      · simp [inputRefStep]
      · by_cases he : f = ""
        · simp [inputRefStep, he]
        · have hm : f ∈ ids := by simpa using hin f rfl he
          simp [inputRefStep, he, hm]
    rw [hstep]
    exact ih acc (fun i hi => h i (List.mem_cons_of_mem inp hi))

/-- When every (nonempty) input reference of every agent is a known id, the
input-reference check reports nothing. -/
theorem inputRefErrors_eq_nil (ids : List String) :
    ∀ (agents : List AgentNode) (acc : List String),
      (∀ ag ∈ agents, ∀ inp ∈ ag.inputs, ∀ f, inp.fromId = some f → f ≠ "" →
        ids.contains f = true) →
      agents.foldl (fun errs a => a.inputs.foldl (inputRefStep ids a) errs) acc = acc := by
  intro agents
  induction agents with
  | nil => intro acc _; rfl
  | cons a rest ih =>
    intro acc h
    simp only [List.foldl_cons]
    rw [inputRefStep_fold_nil ids a _ acc (h a (List.mem_cons_self a rest))]
    exact ih acc (fun ag hg => h ag (List.mem_cons_of_mem a hg))

/-- No input-reference error string is the cycle error message. -/
theorem agentMsg_ne_cycleMsg (s : String) : ("Agent \x27") ++ s ≠ cycleErrorMsg := by
  intro h
  exact (by decide : (some 'A' : Option Char) ≠ some 'T')
    (congrArg (fun u => u.data.head?) h)

/-- Claim C2: with agents A, B, C and the cyclic edges A→B, B→C, C→A,
`validatePlan` reports `ok` false and the cycle error exactly once; with only
the chain edges A→B, B→C and no dangling input references, it reports `ok`
true. -/
theorem c2_cycle_validation (a b c : AgentNode) (d1 d2 d3 v t dsc : String)
    (ds : List (String × List String)) (nts : List String)
    (ha : a.id = "A") (hb : b.id = "B") (hc : c.id = "C") :
    ((validatePlan
        { version := v, title := t, description := dsc, agents := [a, b, c]
        , edges := [⟨"A", "B", d1⟩, ⟨"B", "C", d2⟩, ⟨"C", "A", d3⟩]
        , dataSchemas := ds, notes := nts }).ok = false ∧
     (validatePlan
        { version := v, title := t, description := dsc, agents := [a, b, c]
        , edges := [⟨"A", "B", d1⟩, ⟨"B", "C", d2⟩, ⟨"C", "A", d3⟩]
        , dataSchemas := ds, notes := nts }).errors.count cycleErrorMsg = 1) ∧
    ((∀ ag ∈ [a, b, c], ∀ inp ∈ ag.inputs, ∀ f, inp.fromId = some f → f ≠ "" →
        (["A", "B", "C"] : List String).contains f = true) →
      (validatePlan
        { version := v, title := t, description := dsc, agents := [a, b, c]
        , edges := [⟨"A", "B", d1⟩, ⟨"B", "C", d2⟩]
        , dataSchemas := ds, notes := nts }).ok = true) := by
  obtain ⟨aid, an, aty, asm, ain, aout, atl, anb⟩ := a
  obtain ⟨bid, bn, bty, bsm, bin, bout, btl, bnb⟩ := b
  obtain ⟨cid, cn, cty, csm, cin, cout, ctl, cnb⟩ := c
  have ha' : aid = "A" := ha
  have hb' : bid = "B" := hb
  have hc' : cid = "C" := hc
  subst ha' hb' hc'
  have herr : (validatePlan
      { version := v, title := t, description := dsc
      , agents := [⟨"A", an, aty, asm, ain, aout, atl, anb⟩,
                 ⟨"B", bn, bty, bsm, bin, bout, btl, bnb⟩,
                 ⟨"C", cn, cty, csm, cin, cout, ctl, cnb⟩]
      , edges := [⟨"A", "B", d1⟩, ⟨"B", "C", d2⟩, ⟨"C", "A", d3⟩]
      , dataSchemas := ds, notes := nts }).errors =
      ([⟨"A", an, aty, asm, ain, aout, atl, anb⟩,
        ⟨"B", bn, bty, bsm, bin, bout, btl, bnb⟩,
        ⟨"C", cn, cty, csm, cin, cout, ctl, cnb⟩] : List AgentNode).foldl
        (fun errs ag => ag.inputs.foldl (inputRefStep ["A", "B", "C"] ag) errs) []
      ++ [cycleErrorMsg] := rfl
  refine ⟨⟨?_, ?_⟩, fun hvalid => ?_⟩
  · rw [validatePlan_ok_eq, herr]
    simp
  · rw [herr, List.count_append]
    have h0 : List.count cycleErrorMsg
        (([⟨"A", an, aty, asm, ain, aout, atl, anb⟩,
           ⟨"B", bn, bty, bsm, bin, bout, btl, bnb⟩,
           ⟨"C", cn, cty, csm, cin, cout, ctl, cnb⟩] : List AgentNode).foldl
          (fun errs ag => ag.inputs.foldl (inputRefStep ["A", "B", "C"] ag) errs) []) = 0 := by
      rw [List.count_eq_zero]
      intro hmem
      rcases mem_inputRefErrors ["A", "B", "C"] _ _ _ hmem with h2 | ⟨s, hs⟩
      · simp at h2
      · exact agentMsg_ne_cycleMsg s hs.symm
    rw [h0]
    simp
  · have herr2 : (validatePlan
        { version := v, title := t, description := dsc
        , agents := [⟨"A", an, aty, asm, ain, aout, atl, anb⟩,
                   ⟨"B", bn, bty, bsm, bin, bout, btl, bnb⟩,
                   ⟨"C", cn, cty, csm, cin, cout, ctl, cnb⟩]
        , edges := [⟨"A", "B", d1⟩, ⟨"B", "C", d2⟩]
        , dataSchemas := ds, notes := nts }).errors =
        ([⟨"A", an, aty, asm, ain, aout, atl, anb⟩,
          ⟨"B", bn, bty, bsm, bin, bout, btl, bnb⟩,
          ⟨"C", cn, cty, csm, cin, cout, ctl, cnb⟩] : List AgentNode).foldl
          (fun errs ag => ag.inputs.foldl (inputRefStep ["A", "B", "C"] ag) errs) [] := rfl
    rw [validatePlan_ok_eq, herr2, inputRefErrors_eq_nil _ _ _ hvalid]
    rfl

/-- Witness for C2 at concrete agents with empty inputs. -/
theorem c2_witness :
    ((validatePlan
        { version := "0.1", title := "t", description := "d"
        , agents := [⟨"A", "A", .Generator, "s", [], [], [], []⟩,
                   ⟨"B", "B", .Generator, "s", [], [], [], []⟩,
                   ⟨"C", "C", .Generator, "s", [], [], [], []⟩]
        , edges := [⟨"A", "B", "x"⟩, ⟨"B", "C", "y"⟩, ⟨"C", "A", "z"⟩]
        , dataSchemas := [], notes := [] }).ok = false ∧
     (validatePlan
        { version := "0.1", title := "t", description := "d"
        , agents := [⟨"A", "A", .Generator, "s", [], [], [], []⟩,
                   ⟨"B", "B", .Generator, "s", [], [], [], []⟩,
                   ⟨"C", "C", .Generator, "s", [], [], [], []⟩]
        , edges := [⟨"A", "B", "x"⟩, ⟨"B", "C", "y"⟩, ⟨"C", "A", "z"⟩]
        , dataSchemas := [], notes := [] }).errors.count cycleErrorMsg = 1) ∧
    (validatePlan
        { version := "0.1", title := "t", description := "d"
        , agents := [⟨"A", "A", .Generator, "s", [], [], [], []⟩,
                   ⟨"B", "B", .Generator, "s", [], [], [], []⟩,
                   ⟨"C", "C", .Generator, "s", [], [], [], []⟩]
        , edges := [⟨"A", "B", "x"⟩, ⟨"B", "C", "y"⟩]
        , dataSchemas := [], notes := [] }).ok = true := by
  have h := c2_cycle_validation ⟨"A", "A", .Generator, "s", [], [], [], []⟩
    ⟨"B", "B", .Generator, "s", [], [], [], []⟩
    ⟨"C", "C", .Generator, "s", [], [], [], []⟩
    ("x") ("y") ("z") ("0.1") ("t") ("d") [] [] rfl rfl rfl
  exact ⟨⟨h.1.1, h.1.2⟩, h.2 (by
    intro ag hg inp hi f hf he
    simp only [List.mem_cons, List.not_mem_nil, or_false] at hg
    rcases hg with h1 | h1 | h1 <;> rw [h1] at hi <;> simp at hi)⟩

/-- Splitting at an unambiguous separator: when neither left part contains a
colon, equality of `l ++ : :: r` strings forces both parts equal. -/
theorem colon_append_inj :
    ∀ (l1 l2 r1 r2 : List Char), (':') ∉ l1 → (':') ∉ l2 →
      l1 ++ (':') :: r1 = l2 ++ (':') :: r2 → l1 = l2 ∧ r1 = r2 := by
  intro l1
  induction l1 with
  | nil =>
    intro l2 r1 r2 _ h2 h
    cases l2 with
    | nil => simpa using h
    | cons d l2' =>
      simp only [List.nil_append, List.cons_append, List.cons.injEq] at h
      exact absurd (by rw [h.1]; exact List.mem_cons_self d l2') h2
  | cons c l1' ih =>
    intro l2 r1 r2 h1 h2 h
    cases l2 with
    | nil =>
      simp only [List.cons_append, List.nil_append, List.cons.injEq] at h
      exact absurd (by rw [h.1]; exact List.mem_cons_self (':') l1') h1
    | cons d l2' =>
      simp only [List.cons_append, List.cons.injEq] at h
      have hr := ih l2' r1 r2 (fun hx => h1 (List.mem_cons_of_mem c hx))
        (fun hx => h2 (List.mem_cons_of_mem d hx)) h.2
      exact ⟨by rw [h.1, hr.1], hr.2⟩

/-- The `${x}:${y}` keys are injective when the left parts are colon-free. -/
theorem colon_key_inj (s1 s2 t1 t2 : String)
    (h1 : (':') ∉ s1.data) (h2 : (':') ∉ s2.data) :
    s1 ++ (":") ++ t1 = s2 ++ (":") ++ t2 ↔ s1 = s2 ∧ t1 = t2 := by
  constructor
  · intro h
    have hd : s1.data ++ (':') :: t1.data = s2.data ++ (':') :: t2.data := by
      have := congrArg (fun u => u.data) h
      simpa using this
    have := colon_append_inj s1.data s2.data t1.data t2.data h1 h2 hd
    exact ⟨String.ext this.1, String.ext this.2⟩
  · intro h; rw [h.1, h.2]

/-- Membership in a JS set after one `add` step. -/
theorem mem_jsSetAdd {α : Type} [BEq α] [LawfulBEq α] (acc : List α) (y x : α) :
    x ∈ jsSetAdd acc y ↔ x ∈ acc ∨ x = y := by
  unfold jsSetAdd
  by_cases hc : y ∈ acc
  · rw [if_pos (by simpa using hc)]
    constructor
    · exact Or.inl
    · rintro (h | rfl)
      · exact h
      · exact hc
  · rw [if_neg (by simpa using hc)]
    simp

/-- Membership in `jsSetOfList` equals membership in the source list. -/
theorem mem_jsSetOfList {α : Type} [BEq α] [LawfulBEq α] (l : List α) (x : α) :
    x ∈ jsSetOfList l ↔ x ∈ l := by
  have main : ∀ (l : List α) (acc : List α),
      x ∈ l.foldl jsSetAdd acc ↔ x ∈ acc ∨ x ∈ l := by
    intro l
    induction l with
    | nil => intro acc; simp
    | cons y rest ih =>
      intro acc
      simp only [List.foldl_cons]
      rw [ih, mem_jsSetAdd]
      simp only [List.mem_cons]
      constructor
      · rintro ((h | h) | h)
        · exact Or.inl h
        · exact Or.inr (Or.inl h)
        · exact Or.inr (Or.inr h)
      · rintro (h | h | h)
        · exact Or.inl (Or.inl h)
        · exact Or.inl (Or.inr h)
        · exact Or.inr h
  rw [jsSetOfList, main]
  simp

/-- A fold whose step appends a per-element block is the flat map of blocks. -/
theorem foldl_eq_flatMap {α β : Type} (f : List β → α → List β) (g : α → List β)
    (hf : ∀ ws x, f ws x = ws ++ g x) :
    ∀ (l : List α) (acc : List β), l.foldl f acc = acc ++ l.flatMap g := by
  intro l
  induction l with
  | nil => intro acc; simp
  | cons x rest ih =>
    intro acc
    simp only [List.foldl_cons, List.flatMap_cons]
    rw [hf, ih, List.append_assoc]

/-- Pointwise-equal block functions give equal flat maps. -/
theorem flatMap_congr_mem {α β : Type} :
    ∀ (l : List α) (f g : α → List β), (∀ a ∈ l, f a = g a) →
      l.flatMap f = l.flatMap g := by
  intro l
  induction l with
  | nil => intro f g _; rfl
  | cons a rest ih =>
    intro f g h
    simp only [List.flatMap_cons]
    rw [h a (List.mem_cons_self a rest), ih f g (fun x hx => h x (List.mem_cons_of_mem a hx))]

/-- A flat map of empty blocks is empty. -/
theorem flatMap_nil_blocks {α β : Type} :
    ∀ l : List α, l.flatMap (fun _ => ([] : List β)) = [] := by
  intro l
  induction l with
  | nil => rfl
  | cons a rest ih => simp [ih]

/-- Guarded singleton flat maps are filtered maps. -/
theorem flatMap_ite_filter {α β : Type} (b : α → Bool) (m : α → β) :
    ∀ l : List α, (l.flatMap (fun o => if b o then [] else [m o])) =
      (l.filter (fun o => !(b o))).map m := by
  intro l
  induction l with
  | nil => rfl
  | cons o rest ih =>
    by_cases hb : b o = true
    · simp [hb, ih]
    · simp only [Bool.not_eq_true] at hb
      simp [hb, ih]

/-- One `orphanStep` call appends exactly its `orphanGate` block. -/
theorem orphanStep_eq (p : AgentPlan) (consumed : List String) (a : AgentNode)
    (ws : List String) (o : AgentOutput) :
    orphanStep p consumed a ws o = ws ++ orphanGate p consumed a o := by
  unfold orphanStep orphanGate
  by_cases h1 : (consumed.contains (a.id ++ (":") ++ o.name)) = true
  · rw [if_pos h1, if_pos h1]
    simp
  · rw [if_neg h1, if_neg h1]
    by_cases h2 : (p.edges.any (fun e => e.fromId == a.id)) = true
    · rw [if_pos h2, if_pos h2]
    · rw [if_neg h2, if_neg h2]
      simp

/-- Claim C4 (amended): when no agent id and no edge source contains a colon,
the warnings of `validatePlan` are exactly the per-slot orphan warnings of the
claim: one warning per output slot of an agent with at least one outgoing edge
whose name is never the `data` of an outgoing edge of that same agent, and no
warning for agents without outgoing edges. -/
theorem c4_orphan_warnings_amended (p : AgentPlan)
    (hid : ∀ a ∈ p.agents, (':') ∉ a.id.data)
    (hfrom : ∀ e ∈ p.edges, (':') ∉ e.fromId.data) :
    (validatePlan p).warnings = orphanWarningsSpec p := by
  have hw : (validatePlan p).warnings = orphanWarnings p (consumedOutputKeys p.edges) := rfl
  rw [hw]
  unfold orphanWarnings orphanWarningsSpec
  rw [foldl_eq_flatMap (fun ws a => a.outputs.foldl
        (orphanStep p (consumedOutputKeys p.edges) a) ws)
      (fun a => a.outputs.flatMap (orphanGate p (consumedOutputKeys p.edges) a))
      (fun ws a => foldl_eq_flatMap _ _ (orphanStep_eq p (consumedOutputKeys p.edges) a)
        a.outputs ws)
      p.agents []]
  simp only [List.nil_append]
  apply flatMap_congr_mem
  intro a ha
  have hkey : ∀ o : AgentOutput,
      ((consumedOutputKeys p.edges).contains (a.id ++ (":") ++ o.name)) =
      p.edges.any (fun e => e.fromId == a.id && e.data == o.name) := by
    intro o
    cases hrhs : p.edges.any (fun e => e.fromId == a.id && e.data == o.name) with
    | true =>
      rw [List.any_eq_true] at hrhs
      obtain ⟨e, he, hcond⟩ := hrhs
      simp only [Bool.and_eq_true, beq_iff_eq] at hcond
      have hmem : (a.id ++ (":") ++ o.name) ∈ consumedOutputKeys p.edges := by
        rw [consumedOutputKeys, mem_jsSetOfList, List.mem_map]
        exact ⟨e, he, by rw [hcond.1, hcond.2]⟩
      simpa using hmem
    | false =>
      rw [List.any_eq_false] at hrhs
      by_contra hcont
      simp only [Bool.not_eq_false] at hcont
      have hmem : (a.id ++ (":") ++ o.name) ∈ consumedOutputKeys p.edges := by
        simpa using hcont
      rw [consumedOutputKeys, mem_jsSetOfList, List.mem_map] at hmem
      obtain ⟨e, he, hkeyeq⟩ := hmem
      have := (colon_key_inj e.fromId a.id e.data o.name
        (hfrom e he) (hid a ha)).mp hkeyeq
      exact absurd (by simp [this.1, this.2] :
          (fun e => e.fromId == a.id && e.data == o.name) e = true) (by simpa using hrhs e he)
  have hgate : ∀ o : AgentOutput, orphanGate p (consumedOutputKeys p.edges) a o =
      (if p.edges.any (fun e => e.fromId == a.id) then
        (if p.edges.any (fun e => e.fromId == a.id && e.data == o.name) then []
         else [("Agent \x27") ++ a.name ++ ("\x27 output \x27") ++ o.name
           ++ ("\x27 is not consumed by any edge")])
       else []) := by
    intro o
    unfold orphanGate
    rw [hkey o]
    by_cases h1 : (p.edges.any (fun e => e.fromId == a.id && e.data == o.name)) = true
    · by_cases h2 : (p.edges.any (fun e => e.fromId == a.id)) = true
      · rw [if_pos h1, if_pos h2, if_pos h1]
      · rw [if_pos h1, if_neg h2]
    · by_cases h2 : (p.edges.any (fun e => e.fromId == a.id)) = true
      · rw [if_neg h1, if_pos h2, if_pos h2, if_neg h1]
      · rw [if_neg h1, if_neg h2, if_neg h2]
  rw [flatMap_congr_mem a.outputs _ _ (fun o _ => hgate o)]
  by_cases h2 : (p.edges.any (fun e => e.fromId == a.id)) = true
  · simp only [h2, if_true]
    exact flatMap_ite_filter _ _ a.outputs
  · have h2' : (p.edges.any (fun e => e.fromId == a.id)) = false := by
      simpa using h2
    rw [h2']
    simp only [Bool.false_eq_true, if_false]
    exact flatMap_nil_blocks a.outputs

/-- Witness for the amended C4 at the support-triage template (which has the
severity-classifier orphan). -/
theorem c4_witness :
    (validatePlan supportTriageTemplate).warnings = orphanWarningsSpec supportTriageTemplate :=
  c4_orphan_warnings_amended supportTriageTemplate (by decide) (by decide)

/-- One grouping step applied to the closed form yields the closed form of the
extended prefix. -/
theorem levelGroupStep_closed (levels : List (String × Nat)) (pre : List AgentNode)
    (a : AgentNode) :
    levelGroupStep levels (levelGroupsClosed levels pre) a =
      levelGroupsClosed levels (pre ++ [a]) := by
  unfold levelGroupStep levelGroupsClosed
  simp only [List.map_append, List.map_cons, List.map_nil]
  have hkeys : jsSetOfList (pre.map (fun x => (jsMapGet levels x.id).getD 0)
      ++ [(jsMapGet levels a.id).getD 0]) =
      jsSetAdd (jsSetOfList (pre.map (fun x => (jsMapGet levels x.id).getD 0)))
        ((jsMapGet levels a.id).getD 0) := by
    rw [jsSetOfList, jsSetOfList, List.foldl_append]
    rfl
  rw [hkeys]
  by_cases hmem : ((jsMapGet levels a.id).getD 0) ∈
      jsSetOfList (pre.map (fun x => (jsMapGet levels x.id).getD 0))
  · have hany : ((jsSetOfList (pre.map (fun x => (jsMapGet levels x.id).getD 0))).map
        (fun lv => (lv, pre.filter (fun x => ((jsMapGet levels x.id).getD 0) == lv)))).any
        (fun g => g.1 == (jsMapGet levels a.id).getD 0) = true := by
      rw [List.any_eq_true]
      exact ⟨((jsMapGet levels a.id).getD 0,
        pre.filter (fun x => ((jsMapGet levels x.id).getD 0) == (jsMapGet levels a.id).getD 0)),
        List.mem_map_of_mem _ hmem, by simp⟩
    rw [if_pos hany]
    have hset : jsSetAdd (jsSetOfList (pre.map (fun x => (jsMapGet levels x.id).getD 0)))
        ((jsMapGet levels a.id).getD 0) =
        jsSetOfList (pre.map (fun x => (jsMapGet levels x.id).getD 0)) := by
      unfold jsSetAdd
      rw [if_pos (by simpa using hmem)]
    rw [hset, List.map_map]
    apply List.map_congr_left
    intro lv _
    by_cases hlv : (lv == (jsMapGet levels a.id).getD 0) = true
    · have hlv' : lv = (jsMapGet levels a.id).getD 0 := by simpa using hlv
      simp only [Function.comp_apply, hlv, if_true, List.filter_append]
      rw [hlv']
      congr 1
      simp
    · simp only [Function.comp_apply, hlv, Bool.false_eq_true, if_false, List.filter_append]
      congr 1
      have : (((jsMapGet levels a.id).getD 0) == lv) = false := by
        rw [beq_eq_false_iff_ne]
        intro h
        exact absurd (by simp [h]) hlv
      simp [List.filter, this]
  · have hany : ((jsSetOfList (pre.map (fun x => (jsMapGet levels x.id).getD 0))).map
        (fun lv => (lv, pre.filter (fun x => ((jsMapGet levels x.id).getD 0) == lv)))).any
        (fun g => g.1 == (jsMapGet levels a.id).getD 0) = false := by
      by_contra hcon
      simp only [Bool.not_eq_false, List.any_eq_true] at hcon
      obtain ⟨g, hglist, hbeq⟩ := hcon
      rw [List.mem_map] at hglist
      obtain ⟨lv, hlv, rfl⟩ := hglist
      simp only [beq_iff_eq] at hbeq
      exact hmem (hbeq ▸ hlv)
    rw [if_neg (by simp [hany])]
    have hset : jsSetAdd (jsSetOfList (pre.map (fun x => (jsMapGet levels x.id).getD 0)))
        ((jsMapGet levels a.id).getD 0) =
        jsSetOfList (pre.map (fun x => (jsMapGet levels x.id).getD 0))
          ++ [(jsMapGet levels a.id).getD 0] := by
      unfold jsSetAdd
      rw [if_neg (by simpa using hmem)]
    rw [hset, List.map_append]
    congr 1
    · apply List.map_congr_left
      intro lv hlv
      have hne : (((jsMapGet levels a.id).getD 0) == lv) = false := by
        rw [beq_eq_false_iff_ne]
        intro h
        exact hmem (h ▸ hlv)
      rw [List.filter_append]
      congr 1
      simp [List.filter, hne]
    · simp only [List.map_cons, List.map_nil, List.filter_append]
      have h1 : pre.filter (fun x => ((jsMapGet levels x.id).getD 0)
          == (jsMapGet levels a.id).getD 0) = [] := by
        rw [List.filter_eq_nil_iff]
        intro x hx hbeq
        exact hmem ((by simpa using hbeq : ((jsMapGet levels x.id).getD 0) =
          (jsMapGet levels a.id).getD 0) ▸ (mem_jsSetOfList _ _).mpr
            (List.mem_map_of_mem _ hx))
      rw [h1]
      simp [List.filter]

/-- The grouping fold computes the closed form. -/
theorem levelGroupsOf_eq_closed (levels : List (String × Nat)) :
    ∀ agents : List AgentNode,
      agents.foldl (levelGroupStep levels) [] = levelGroupsClosed levels agents := by
  intro agents
  induction agents using List.reverseRecOn with
  | nil => rfl
  | append_singleton pre a ih =>
    rw [List.foldl_append, List.foldl_cons, List.foldl_nil, ih, levelGroupStep_closed]

/-- The nodes of the layout output, in closed form. -/
theorem planToReactFlow_nodes (p : AgentPlan) :
    (planToReactFlow p).1 = (levelGroupsClosed (layoutLevels p) p.agents).flatMap
      (fun g => g.2.enum.map (fun ia => mkLayoutNode g.1 g.2.length ia.1 ia.2)) := by
  have h1 : (planToReactFlow p).1 = (levelGroupsOf p (layoutLevels p)).flatMap
      (fun g => g.2.enum.map (fun ia => mkLayoutNode g.1 g.2.length ia.1 ia.2)) := rfl
  rw [h1, levelGroupsOf, levelGroupsOf_eq_closed]

/-- Every node of the layout output sits at x = 380 times its agent level. -/
theorem layout_node_x (p : AgentPlan) :
    ∀ nd ∈ (planToReactFlow p).1, nd.x = 380 * ((levelOf p nd.id : Nat) : Int) := by
  intro nd hnd
  rw [planToReactFlow_nodes] at hnd
  rw [List.mem_flatMap] at hnd
  obtain ⟨g, hg, hin⟩ := hnd
  rw [List.mem_map] at hin
  obtain ⟨ia, hia, rfl⟩ := hin
  unfold levelGroupsClosed at hg
  rw [List.mem_map] at hg
  obtain ⟨lv, _, rfl⟩ := hg
  have ha : ia.2 ∈ p.agents.filter
      (fun a => ((jsMapGet (layoutLevels p) a.id).getD 0) == lv) := by
    have hsnd := List.mem_map_of_mem Prod.snd hia
    rwa [List.enum_map_snd] at hsnd
  have hlvl : levelOf p ia.2.id = lv := by
    have := (List.mem_filter.mp ha).2
    simpa [levelOf] using this
  show (lv : Int) * (NODE_WIDTH + HORIZONTAL_GAP) = 380 * ((levelOf p ia.2.id : Nat) : Int)
  rw [hlvl]
  unfold NODE_WIDTH HORIZONTAL_GAP
  ring

/-- For every level and every index into its column, the layout output holds
the corresponding node at the claimed coordinates. -/
theorem layout_column_nodes (p : AgentPlan) (lv : Nat) (i : Nat)
    (hi : i < (levelColumnSpec p lv).length) :
    ∃ nd ∈ (planToReactFlow p).1,
      nd.id = ((levelColumnSpec p lv).get ⟨i, hi⟩).id ∧
      nd.x = 380 * (lv : Int) ∧
      nd.y = -(((levelColumnSpec p lv).length : Int) * 100
              + (((levelColumnSpec p lv).length : Int) - 1) * 40) / 2 + (i : Int) * 140 := by
  have hcol : p.agents.filter
      (fun a => ((jsMapGet (layoutLevels p) a.id).getD 0) == lv) = levelColumnSpec p lv := rfl
  have hne : levelColumnSpec p lv ≠ [] := by
    intro h
    rw [h] at hi
    exact absurd hi (by simp)
  have hwit : ∃ a ∈ p.agents, ((jsMapGet (layoutLevels p) a.id).getD 0) = lv := by
    obtain ⟨a, ha⟩ := List.exists_mem_of_ne_nil _ hne
    have := List.mem_filter.mp (hcol ▸ ha)
    exact ⟨a, this.1, by simpa using this.2⟩
  have hkey : lv ∈ jsSetOfList (p.agents.map (fun a => (jsMapGet (layoutLevels p) a.id).getD 0)) := by
    obtain ⟨a, ha, hlv⟩ := hwit
    exact (mem_jsSetOfList _ _).mpr (hlv ▸ List.mem_map_of_mem _ ha)
  have hgmem : (lv, levelColumnSpec p lv) ∈ levelGroupsClosed (layoutLevels p) p.agents := by
    unfold levelGroupsClosed
    rw [← hcol]
    exact List.mem_map_of_mem _ hkey
  have hienum : i < (levelColumnSpec p lv).enum.length := by simpa using hi
  have henum : (i, (levelColumnSpec p lv).get ⟨i, hi⟩) ∈ (levelColumnSpec p lv).enum := by
    have hg := List.getElem_enum (levelColumnSpec p lv) (i := i) (h := hienum)
    have hgg : (levelColumnSpec p lv).get ⟨i, hi⟩ = (levelColumnSpec p lv)[i] := rfl
    rw [hgg, ← hg]
    exact List.getElem_mem hienum
  refine ⟨mkLayoutNode lv (levelColumnSpec p lv).length i
    ((levelColumnSpec p lv).get ⟨i, hi⟩), ?_, rfl, ?_, ?_⟩
  · rw [planToReactFlow_nodes, List.mem_flatMap]
    exact ⟨(lv, levelColumnSpec p lv), hgmem, List.mem_map_of_mem _ henum⟩
  · show (lv : Int) * (NODE_WIDTH + HORIZONTAL_GAP) = 380 * (lv : Int)
    unfold NODE_WIDTH HORIZONTAL_GAP
    ring
  · show -(((levelColumnSpec p lv).length : Int) * NODE_HEIGHT
          + (((levelColumnSpec p lv).length : Int) - 1) * VERTICAL_GAP) / 2
        + (i : Int) * (NODE_HEIGHT + VERTICAL_GAP) = _
    unfold NODE_HEIGHT VERTICAL_GAP
    norm_num

/-- Claim C3: in the layout output every agent at level L has x = L·380
(nodeWidth 280 plus horizontal gap 100); within each level the agents are
stacked in plan-declaration order centered around y = 0, the i-th at
y = -(n·100 + (n-1)·40)/2 + i·140; and x strictly increases with level. -/
theorem c3_layout_coordinates (p : AgentPlan) (_hacyc : planCycleFlag p = false) :
    (∀ nd ∈ (planToReactFlow p).1, nd.x = 380 * ((levelOf p nd.id : Nat) : Int)) ∧
    (∀ lv i, (hi : i < (levelColumnSpec p lv).length) →
      ∃ nd ∈ (planToReactFlow p).1,
        nd.id = ((levelColumnSpec p lv).get ⟨i, hi⟩).id ∧
        nd.x = 380 * (lv : Int) ∧
        nd.y = -(((levelColumnSpec p lv).length : Int) * 100
                + (((levelColumnSpec p lv).length : Int) - 1) * 40) / 2 + (i : Int) * 140) ∧
    (∀ nd1 ∈ (planToReactFlow p).1, ∀ nd2 ∈ (planToReactFlow p).1,
      levelOf p nd1.id < levelOf p nd2.id → nd1.x < nd2.x) := by
  refine ⟨layout_node_x p, fun lv i hi => layout_column_nodes p lv i hi, ?_⟩
  intro nd1 h1 nd2 h2 hlt
  rw [layout_node_x p nd1 h1, layout_node_x p nd2 h2]
  have : ((levelOf p nd1.id : Nat) : Int) < ((levelOf p nd2.id : Nat) : Int) := by
    exact_mod_cast hlt
  omega

/-- Witness for C3 at the three-step chain plan. -/
theorem c3_witness :
    ((planToReactFlow (planFromDescription
      ("Fetch data, then extract fields, then notify team."))).1.all
        (fun nd => nd.x == 380 * ((levelOf (planFromDescription
          ("Fetch data, then extract fields, then notify team.")) nd.id : Nat) : Int))) = true := by
  have h := (c3_layout_coordinates (planFromDescription
    ("Fetch data, then extract fields, then notify team.")) (by decide)).1
  rw [List.all_eq_true]
  intro nd hnd
  simpa using h nd hnd

/-- Claim C6 (amended): every agent of every plan — cyclic or not — receives a
node with a position in the layout output, at x = 380 times its recorded
level, defaulting to level 0 (x = 0) when the levels map has no entry for it. -/
theorem c6_layout_amended (p : AgentPlan) :
    ∀ a ∈ p.agents, ∃ nd ∈ (planToReactFlow p).1, nd.id = a.id ∧
      nd.x = 380 * ((levelOf p a.id : Nat) : Int) ∧
      (jsMapGet (layoutLevels p) a.id = none → nd.x = 0) := by
  intro a ha
  have hmemcol : a ∈ levelColumnSpec p (levelOf p a.id) :=
    List.mem_filter.mpr ⟨ha, by simp⟩
  obtain ⟨⟨i, hi⟩, hget⟩ := List.mem_iff_get.mp hmemcol
  obtain ⟨nd, hnd, hid, hx, _⟩ := layout_column_nodes p (levelOf p a.id) i hi
  refine ⟨nd, hnd, by rw [hid, hget], hx, fun hnone => ?_⟩
  rw [hx]
  simp [levelOf, hnone]

/-- Witness for the amended C6 at the two-agent cycle. -/
theorem c6_witness :
    ∃ nd ∈ (planToReactFlow twoCyclePlan).1, nd.id = "A" ∧
      nd.x = 380 * ((levelOf twoCyclePlan ("A") : Nat) : Int) ∧
      (jsMapGet (layoutLevels twoCyclePlan) ("A") = none → nd.x = 0) :=
  c6_layout_amended twoCyclePlan
    { id := "A", name := "A", type := .Generator, summary := "s"
    , inputs := [], outputs := [] } (by decide)

/-- `pChar` consumes at most the input. -/
theorem pChar_bound (x : Char) : MatcherBound (pChar x) := by
  intro s n h
  cases s with
  | nil => exact absurd h (by simp [pChar])
  | cons c cs =>
    simp only [pChar] at h
    by_cases hc : c = x
    · rw [if_pos hc] at h
      cases h
      simp
    · rw [if_neg hc] at h
      cases h

/-- Characters matched by `pChar x` satisfy any `P` with `P x`. -/
theorem pChar_chars (x : Char) (P : Char → Bool) (hP : P x = true) :
    MatcherChars (pChar x) P := by
  intro s n i h hi hlen
  cases s with
  | nil => exact absurd h (by simp [pChar])
  | cons c cs =>
    simp only [pChar] at h
    by_cases hc : c = x
    · rw [if_pos hc] at h
      cases h
      interval_cases i
      simpa [hc] using hP
    · rw [if_neg hc] at h
      cases h

/-- The head matched by `pChar x` is `x`. -/
theorem pChar_start (x : Char) : ∀ c cs n, pChar x (c :: cs) = some n → c = x := by
  intro c cs n h
  simp only [pChar] at h
  by_cases hc : c = x
  · exact hc
  · rw [if_neg hc] at h
    cases h

/-- `pWsStar` consumes at most the input. -/
theorem pWsStar_bound : MatcherBound pWsStar := by
  intro s n h
  unfold pWsStar at h
  cases h
  exact List.Sublist.length_le (List.takeWhile_sublist _)

/-- Characters matched by `pWsStar` are whitespace. -/
theorem pWsStar_chars (P : Char → Bool) (hP : ∀ c, isJsWs c = true → P c = true) :
    MatcherChars pWsStar P := by
  intro s n i h hi hlen
  unfold pWsStar at h
  cases h
  have hpre : s.takeWhile isJsWs <+: s := List.takeWhile_prefix _
  have hget := List.IsPrefix.getElem hpre hi
  have hmem : (s.takeWhile isJsWs)[i] ∈ s.takeWhile isJsWs := List.getElem_mem hi
  have hws := List.mem_takeWhile_imp hmem
  apply hP
  have heq : s.get ⟨i, hlen⟩ = (s.takeWhile isJsWs)[i] := by
    simp only [List.get_eq_getElem]
    exact hget.symm
  rw [heq]
  exact hws

/-- `pWsPlus` consumes at most the input. -/
theorem pWsPlus_bound : MatcherBound pWsPlus := by
  intro s n h
  unfold pWsPlus at h
  by_cases h0 : (s.takeWhile isJsWs).length = 0
  · rw [if_pos h0] at h
    cases h
  · rw [if_neg h0] at h
    cases h
    exact List.Sublist.length_le (List.takeWhile_sublist _)

/-- Characters matched by `pWsPlus` are whitespace. -/
theorem pWsPlus_chars (P : Char → Bool) (hP : ∀ c, isJsWs c = true → P c = true) :
    MatcherChars pWsPlus P := by
  intro s n i h hi hlen
  unfold pWsPlus at h
  by_cases h0 : (s.takeWhile isJsWs).length = 0
  · rw [if_pos h0] at h
    cases h
  · rw [if_neg h0] at h
    cases h
    exact pWsStar_chars P hP s _ i rfl hi hlen

/-- The head matched by `pWsPlus` is whitespace. -/
theorem pWsPlus_start : ∀ c cs n, pWsPlus (c :: cs) = some n → isJsWs c = true := by
  intro c cs n h
  unfold pWsPlus at h
  by_cases hws : isJsWs c = true
  · exact hws
  · rw [List.takeWhile_cons_of_neg (by simpa using hws)] at h
    simp at h

/-- `pLit` only succeeds when the lowered input starts with the pattern,
consuming exactly the pattern length. -/
theorem pLit_spec :
    ∀ (p s : List Char) (n : Nat), pLit p s = some n →
      n = p.length ∧ n ≤ s.length ∧
      ∀ i (hi : i < n) (hs : i < s.length), Char.toLower (s.get ⟨i, hs⟩) ∈ p := by
  intro p
  induction p with
  | nil =>
    intro s n h
    unfold pLit at h
    cases h
    exact ⟨rfl, by simp, by intro i hi; cases hi⟩
  | cons d p' ih =>
    intro s n h
    cases s with
    | nil => exact absurd h (by simp [pLit])
    | cons c cs =>
      simp only [pLit] at h
      by_cases hc : Char.toLower c = d
      · rw [if_pos hc] at h
        cases hrec : pLit p' cs with
        | none => rw [hrec] at h; cases h
        | some k =>
          rw [hrec] at h
          rw [Option.map_some'] at h
          cases h
          obtain ⟨hk, hkb, hchars⟩ := ih cs k hrec
          refine ⟨by simp [hk], by simp; omega, ?_⟩
          intro i hi hs
          cases i with
          | zero => simp [hc]
          | succ j =>
            right
            exact hchars j (by omega) (by simpa using hs)
      · rw [if_neg hc] at h
        cases h

/-- `pSeq` consumes at most the input. -/
theorem pSeq_bound (p q : List Char → Option Nat)
    (hp : MatcherBound p) (hq : MatcherBound q) : MatcherBound (pSeq p q) := by
  intro s n h
  cases h1 : p s with
  | none => simp [pSeq, h1] at h
  | some n1 =>
    cases h2 : q (s.drop n1) with
    | none => simp [pSeq, h1, h2] at h
    | some n2 =>
      simp only [pSeq, h1, h2, Option.some.injEq] at h
      have b1 := hp s n1 h1
      have b2 := hq _ n2 h2
      rw [List.length_drop] at b2
      omega

/-- `pSeq` characters satisfy `P` when both component matchers guarantee it. -/
theorem pSeq_chars (p q : List Char → Option Nat) (P : Char → Bool)
    (hp : MatcherChars p P) (hq : MatcherChars q P) :
    MatcherChars (pSeq p q) P := by
  intro s n i h hi hlen
  cases h1 : p s with
  | none => simp [pSeq, h1] at h
  | some n1 =>
    cases h2 : q (s.drop n1) with
    | none => simp [pSeq, h1, h2] at h
    | some n2 =>
      simp only [pSeq, h1, h2, Option.some.injEq] at h
      subst h
      by_cases hcase : i < n1
      · exact hp s n1 i h1 hcase hlen
      · have hdroplen : i - n1 < (s.drop n1).length := by
          rw [List.length_drop]; omega
        have := hq (s.drop n1) n2 (i - n1) h2 (by omega) hdroplen
        have hgd : (s.drop n1).get ⟨i - n1, hdroplen⟩ = s.get ⟨i, hlen⟩ := by
          have := List.getElem_drop s (i := n1) (j := i - n1) (h := hdroplen)
          simp only [List.get_eq_getElem]
          rw [this]
          congr 1
          omega
        rwa [hgd] at this

/-- `pSeq` inherits its start character from the first matcher. -/
theorem pSeq_start (p q : List Char → Option Nat) (P : Char → Bool)
    (hp : ∀ c cs n, p (c :: cs) = some n → P c = true) :
    MatcherStart (pSeq p q) P := by
  intro c cs n h
  cases h1 : p (c :: cs) with
  | none => simp [pSeq, h1] at h
  | some n1 => exact hp c cs n1 h1

/-- `pLit` consumes at most the input. -/
theorem pLit_bound (w : List Char) : MatcherBound (pLit w) :=
  fun s n h => (pLit_spec w s n h).2.1

/-- Characters matched by `pLit w` lower to letters of `w`. -/
theorem pLit_chars (w : List Char) (P : Char → Bool)
    (hP : ∀ c, Char.toLower c ∈ w → P c = true) : MatcherChars (pLit w) P := by
  intro s n i h hi hlen
  obtain ⟨_, _, hchars⟩ := pLit_spec w s n h
  exact hP _ (hchars i hi hlen)

/-- Whitespace belongs to the delimiter start class. -/
theorem ws_delimStart : ∀ c, isJsWs c = true → delimStart c = true := by
  intro c h
  unfold delimStart
  rw [h]
  simp

/-- Whitespace belongs to the delimiter character class. -/
theorem ws_delimChar : ∀ c, isJsWs c = true → delimChar c = true := by
  intro c h
  unfold delimChar
  rw [ws_delimStart c h]
  simp

/-- Case variants of the letters of "and" and "then" belong to the delimiter
character class. -/
theorem lit_delimChar (w : List Char)
    (hw : ∀ d ∈ w, d ∈ (['a', 'n', 'd', 't', 'h', 'e'] : List Char)) :
    ∀ c, Char.toLower c ∈ w → delimChar c = true := by
  intro c hc
  unfold delimChar
  rw [Bool.or_eq_true]
  right
  simpa using hw _ hc

/-- Bound instance for the `,\s*and\s+then\s*` matcher. -/
theorem mCommaAndThen_bound : MatcherBound mCommaAndThen := by
  unfold mCommaAndThen
  exact pSeq_bound _ _ (pChar_bound ',') (pSeq_bound _ _ pWsStar_bound (pSeq_bound _ _
    (pLit_bound _) (pSeq_bound _ _ pWsPlus_bound (pSeq_bound _ _ (pLit_bound _)
      pWsStar_bound))))

/-- Character-class instance for the `,\s*and\s+then\s*` matcher. -/
theorem mCommaAndThen_chars : MatcherChars mCommaAndThen delimChar := by
  unfold mCommaAndThen
  refine pSeq_chars _ _ _ (pChar_chars ',' _ (by decide)) ?_
  refine pSeq_chars _ _ _ (pWsStar_chars _ ws_delimChar) ?_
  refine pSeq_chars _ _ _ (pLit_chars _ _ (lit_delimChar _ (by decide))) ?_
  refine pSeq_chars _ _ _ (pWsPlus_chars _ ws_delimChar) ?_
  exact pSeq_chars _ _ _ (pLit_chars _ _ (lit_delimChar _ (by decide)))
    (pWsStar_chars _ ws_delimChar)

/-- Start-class instance for the `,\s*and\s+then\s*` matcher. -/
theorem mCommaAndThen_start : MatcherStart mCommaAndThen delimStart := by
  unfold mCommaAndThen
  exact pSeq_start _ _ _ (fun c cs n h => by rw [pChar_start ',' c cs n h]; decide)

/-- Bound instance for the `\s+and\s+then\s+` matcher. -/
theorem mAndThen_bound : MatcherBound mAndThen := by
  unfold mAndThen
  exact pSeq_bound _ _ pWsPlus_bound (pSeq_bound _ _ (pLit_bound _)
    (pSeq_bound _ _ pWsPlus_bound (pSeq_bound _ _ (pLit_bound _) pWsPlus_bound)))

/-- Character-class instance for the `\s+and\s+then\s+` matcher. -/
theorem mAndThen_chars : MatcherChars mAndThen delimChar := by
  unfold mAndThen
  refine pSeq_chars _ _ _ (pWsPlus_chars _ ws_delimChar) ?_
  refine pSeq_chars _ _ _ (pLit_chars _ _ (lit_delimChar _ (by decide))) ?_
  refine pSeq_chars _ _ _ (pWsPlus_chars _ ws_delimChar) ?_
  exact pSeq_chars _ _ _ (pLit_chars _ _ (lit_delimChar _ (by decide)))
    (pWsPlus_chars _ ws_delimChar)

/-- Start-class instance for the `\s+and\s+then\s+` matcher. -/
theorem mAndThen_start : MatcherStart mAndThen delimStart := by
  unfold mAndThen
  exact pSeq_start _ _ _ (fun c cs n h => ws_delimStart c (pWsPlus_start c cs n h))

/-- Bound instance for the `\s+then\s+` matcher. -/
theorem mThen_bound : MatcherBound mThen := by
  unfold mThen
  exact pSeq_bound _ _ pWsPlus_bound (pSeq_bound _ _ (pLit_bound _) pWsPlus_bound)

/-- Character-class instance for the `\s+then\s+` matcher. -/
theorem mThen_chars : MatcherChars mThen delimChar := by
  unfold mThen
  refine pSeq_chars _ _ _ (pWsPlus_chars _ ws_delimChar) ?_
  exact pSeq_chars _ _ _ (pLit_chars _ _ (lit_delimChar _ (by decide)))
    (pWsPlus_chars _ ws_delimChar)

/-- Start-class instance for the `\s+then\s+` matcher. -/
theorem mThen_start : MatcherStart mThen delimStart := by
  unfold mThen
  exact pSeq_start _ _ _ (fun c cs n h => ws_delimStart c (pWsPlus_start c cs n h))

/-- Bound instance for the `\.\s+` matcher. -/
theorem mDotWs_bound : MatcherBound mDotWs := by
  unfold mDotWs
  exact pSeq_bound _ _ (pChar_bound '.') pWsPlus_bound

/-- Character-class instance for the `\.\s+` matcher. -/
theorem mDotWs_chars : MatcherChars mDotWs delimChar := by
  unfold mDotWs
  exact pSeq_chars _ _ _ (pChar_chars '.' _ (by decide)) (pWsPlus_chars _ ws_delimChar)

/-- Start-class instance for the `\.\s+` matcher. -/
theorem mDotWs_start : MatcherStart mDotWs delimStart := by
  unfold mDotWs
  exact pSeq_start _ _ _ (fun c cs n h => by rw [pChar_start '.' c cs n h]; decide)

/-- Bound instance for the `,\s*and\s+` matcher. -/
theorem mCommaAnd_bound : MatcherBound mCommaAnd := by
  unfold mCommaAnd
  exact pSeq_bound _ _ (pChar_bound ',') (pSeq_bound _ _ pWsStar_bound
    (pSeq_bound _ _ (pLit_bound _) pWsPlus_bound))

/-- Character-class instance for the `,\s*and\s+` matcher. -/
theorem mCommaAnd_chars : MatcherChars mCommaAnd delimChar := by
  unfold mCommaAnd
  refine pSeq_chars _ _ _ (pChar_chars ',' _ (by decide)) ?_
  refine pSeq_chars _ _ _ (pWsStar_chars _ ws_delimChar) ?_
  exact pSeq_chars _ _ _ (pLit_chars _ _ (lit_delimChar _ (by decide)))
    (pWsPlus_chars _ ws_delimChar)

/-- Start-class instance for the `,\s*and\s+` matcher. -/
theorem mCommaAnd_start : MatcherStart mCommaAnd delimStart := by
  unfold mCommaAnd
  exact pSeq_start _ _ _ (fun c cs n h => by rw [pChar_start ',' c cs n h]; decide)

/-- Unfolding: a non-match at the head lets the character pass through. -/
theorem scanReplaceAux_cons_nomatch (m : List Char → Option Nat) (f : Nat)
    (c : Char) (cs : List Char) (h : m (c :: cs) = none) :
    scanReplaceAux m (f + 1) (c :: cs) = c :: scanReplaceAux m f cs := by
  simp [scanReplaceAux, h]

/-- Unfolding: a match of length `n + 1` at the head is replaced by ", ". -/
theorem scanReplaceAux_cons_match (m : List Char → Option Nat) (f : Nat)
    (c : Char) (cs : List Char) (n : Nat) (h : m (c :: cs) = some (n + 1)) :
    scanReplaceAux m (f + 1) (c :: cs) = ',' :: ' ' :: scanReplaceAux m f (cs.drop n) := by
  simp [scanReplaceAux, h]

/-- Characters outside the start class pass through the scanner unreplaced. -/
theorem scan_skip (m : List Char → Option Nat) (startP : Char → Bool)
    (hstart : MatcherStart m startP) :
    ∀ (w : List Char), (∀ c ∈ w, startP c = false) →
      ∀ fuel v, w.length ≤ fuel →
        scanReplaceAux m fuel (w ++ v) = w ++ scanReplaceAux m (fuel - w.length) v := by
  intro w
  induction w with
  | nil => intro _ fuel v _; simp
  | cons c w' ih =>
    intro hw fuel v hlen
    cases fuel with
    | zero => simp at hlen
    | succ f =>
      have hnom : m (c :: (w' ++ v)) = none := by
        cases hm : m (c :: (w' ++ v)) with
        | none => rfl
        | some n =>
          have hs := hstart c _ n hm
          rw [hw c (List.mem_cons_self c w')] at hs
          cases hs
      rw [List.cons_append, scanReplaceAux_cons_nomatch m f c (w' ++ v) hnom,
        ih (fun x hx => hw x (List.mem_cons_of_mem c hx)) f v (by simpa using hlen)]
      simp [Nat.succ_sub_succ]

/-- Core preservation: a keyword whose characters cannot start a match, and
whose first character cannot occur inside a match, survives the scanner. -/
theorem scanReplace_preserves (m : List Char → Option Nat) (startP matchP : Char → Bool)
    (hbound : MatcherBound m) (hchars : MatcherChars m matchP)
    (hstart : MatcherStart m startP) (w : List Char)
    (hw : ∀ c ∈ w, startP c = false)
    (hw0 : ∀ (c : Char) (t : List Char), w = c :: t → matchP c = false) :
    ∀ fuel u v, (u ++ (w ++ v)).length ≤ fuel →
      w <:+: scanReplaceAux m fuel (u ++ (w ++ v)) := by
  by_cases hwnil : w = []
  · subst hwnil
    intro fuel u v _
    exact List.nil_infix
  · obtain ⟨wc, wt, rfl⟩ : ∃ wc wt, w = wc :: wt := by
      cases w with
      | nil => exact absurd rfl hwnil
      | cons a b => exact ⟨a, b, rfl⟩
    intro fuel
    induction fuel with
    | zero =>
      intro u v hlen
      have h0 : ∀ s, scanReplaceAux m 0 s = s := fun s => by cases s <;> rfl
      rw [h0]
      exact ⟨u, v, by simp⟩
    | succ f ih =>
      intro u v hlen
      cases u with
      | nil =>
        rw [List.nil_append] at hlen ⊢
        rw [scan_skip m startP hstart (wc :: wt) hw (f + 1) v
          (by simp only [List.length_cons, List.length_append] at hlen ⊢; omega)]
        exact ⟨[], _, rfl⟩
      | cons c u' =>
        rw [List.cons_append]
        cases hm : m (c :: (u' ++ ((wc :: wt) ++ v))) with
        | none =>
          rw [scanReplaceAux_cons_nomatch m f _ _ hm]
          exact List.infix_cons (ih u' v (by simp at hlen ⊢; omega))
        | some n =>
          cases n with
          | zero =>
            have hc : scanReplaceAux m (f + 1) (c :: (u' ++ ((wc :: wt) ++ v))) =
                match m (c :: (u' ++ ((wc :: wt) ++ v))) with
                | some (n + 1) =>
                  ',' :: ' ' :: scanReplaceAux m f ((u' ++ ((wc :: wt) ++ v)).drop n)
                | _ => c :: scanReplaceAux m f (u' ++ ((wc :: wt) ++ v)) := rfl
            rw [hc, hm]
            exact List.infix_cons (ih u' v (by simp at hlen ⊢; omega))
          | succ n' =>
            have hnle : n' ≤ u'.length := by
              by_contra hgt
              push_neg at hgt
              have hilen : u'.length + 1 < (c :: (u' ++ ((wc :: wt) ++ v))).length := by
                simp only [List.length_cons, List.length_append]
                omega
              have hchar := hchars _ (n' + 1) (u'.length + 1) hm (by omega) hilen
              have hget : (c :: (u' ++ ((wc :: wt) ++ v))).get
                  ⟨u'.length + 1, hilen⟩ = wc := by
                simp only [List.get_eq_getElem, List.getElem_cons_succ]
                rw [List.getElem_append_right (le_refl u'.length)]
                simp
              rw [hget] at hchar
              rw [hw0 wc wt rfl] at hchar
              cases hchar
            rw [scanReplaceAux_cons_match m f _ _ n' hm,
              List.drop_append_of_le_length hnle]
            exact List.infix_cons (List.infix_cons
              (ih (u'.drop n') v (by simp at hlen ⊢; omega)))

/-- A nonempty pattern with no character satisfying `p` survives `dropWhile p`. -/
theorem infix_dropWhile (p : Char → Bool) (w : List Char)
    (hw : ∀ c ∈ w, p c = false) (hne : w ≠ []) :
    ∀ l, w <:+: l → w <:+: l.dropWhile p := by
  intro l
  induction l with
  | nil => intro h; exact h
  | cons c t ih =>
    intro h
    by_cases hc : p c = true
    · rw [List.dropWhile_cons_of_pos hc]
      apply ih
      rcases List.infix_cons_iff.mp h with hpre | hinf
      · cases w with
        | nil => exact absurd rfl hne
        | cons wc wt =>
          obtain ⟨hd, _⟩ := List.cons_prefix_cons.mp hpre
          rw [← hd] at hc
          rw [hw wc (List.mem_cons_self wc wt)] at hc
          cases hc
      · exact hinf
    · rw [List.dropWhile_cons_of_neg hc]
      exact h

/-- A nonempty whitespace-free pattern survives `trimChars`. -/
theorem infix_trimChars (w : List Char) (hw : ∀ c ∈ w, isJsWs c = false)
    (hne : w ≠ []) (l : List Char) (h : w <:+: l) : w <:+: trimChars l := by
  unfold trimChars
  have h1 := infix_dropWhile isJsWs w hw hne l h
  have h2 : w.reverse <:+: (l.dropWhile isJsWs).reverse := List.reverse_infix.mpr h1
  have h3 := infix_dropWhile isJsWs w.reverse
    (fun c hc => hw c (by simpa using hc)) (by simpa using hne) _ h2
  have h4 := List.reverse_infix.mpr h3
  rwa [List.reverse_reverse] at h4

/-- The comma split always returns at least one fragment. -/
theorem splitCommaWsAux_ne_nil : ∀ (fuel : Nat) (s : List Char),
    splitCommaWsAux fuel s ≠ [] := by
  intro fuel s
  cases fuel with
  | zero => simp [splitCommaWsAux]
  | succ f =>
    cases s with
    | nil => simp [splitCommaWsAux]
    | cons c cs =>
      simp only [splitCommaWsAux]
      by_cases hc : c = ','
      · simp [hc]
      · rw [if_neg hc]
        cases h : splitCommaWsAux f cs <;> simp

/-- A comma-free prefix of the input is a prefix of the first fragment. -/
theorem splitCommaWsAux_head_prefix :
    ∀ (w : List Char) (fuel : Nat) (cs : List Char), w <+: cs →
      (∀ c ∈ w, c ≠ ',') → cs.length ≤ fuel →
      w <+: (splitCommaWsAux fuel cs).headD [] := by
  intro w
  induction w with
  | nil => intro fuel cs _ _ _; exact List.nil_prefix
  | cons d w' ih =>
    intro fuel cs hpre hnc hlen
    cases cs with
    | nil => exact absurd hpre (by simp)
    | cons e cs' =>
      obtain ⟨hd, hrest⟩ := List.cons_prefix_cons.mp hpre
      cases fuel with
      | zero => simp at hlen
      | succ f =>
        have hne : ¬(e = ',') := by
          rw [← hd]
          exact hnc d (List.mem_cons_self d w')
        simp only [splitCommaWsAux, if_neg hne]
        cases hrec : splitCommaWsAux f cs' with
        | nil => exact absurd hrec (splitCommaWsAux_ne_nil f cs')
        | cons p ps =>
          simp only [List.headD_cons]
          refine List.cons_prefix_cons.mpr ⟨hd, ?_⟩
          have := ih f cs' hrest (fun c hc2 => hnc c (List.mem_cons_of_mem d hc2))
            (by simp at hlen; omega)
          rwa [hrec, List.headD_cons] at this

/-- A comma-free whitespace-free infix pattern of the input lands inside one
fragment of the comma split. -/
theorem splitCommaWsAux_infix (w : List Char) (hwne : w ≠ [])
    (hw : ∀ c ∈ w, c ≠ ',' ∧ isJsWs c = false) :
    ∀ (fuel : Nat) (s : List Char), s.length ≤ fuel → w <:+: s →
      ∃ p ∈ splitCommaWsAux fuel s, w <:+: p := by
  intro fuel
  induction fuel with
  | zero =>
    intro s hlen hinf
    have hs : s = [] := by
      cases s with
      | nil => rfl
      | cons c cs => simp at hlen
    rw [hs] at hinf
    exact absurd (List.eq_nil_of_infix_nil hinf) hwne
  | succ f ih =>
    intro s hlen hinf
    cases s with
    | nil => exact absurd (List.eq_nil_of_infix_nil hinf) hwne
    | cons c cs =>
      by_cases hc : c = ','
      · subst hc
        have hw' : w <:+: cs := by
          rcases List.infix_cons_iff.mp hinf with hpre | h2
          · cases w with
            | nil => exact absurd rfl hwne
            | cons wc wt =>
              obtain ⟨hd, _⟩ := List.cons_prefix_cons.mp hpre
              exact absurd hd (hw wc (List.mem_cons_self wc wt)).1
          · exact h2
        have hw2 := infix_dropWhile isJsWs w (fun x hx => (hw x hx).2) hwne cs hw'
        obtain ⟨p, hp, hwp⟩ := ih (cs.dropWhile isJsWs)
          (by
            have := List.Sublist.length_le (List.dropWhile_sublist (l := cs) (p := isJsWs))
            simp at hlen
            omega) hw2
        refine ⟨p, ?_, hwp⟩
        simp only [splitCommaWsAux, if_pos rfl]
        exact List.mem_cons_of_mem _ hp
      · rcases List.infix_cons_iff.mp hinf with hpre | h2
        · cases w with
          | nil => exact absurd rfl hwne
          | cons wc wt =>
            obtain ⟨hd, hrest⟩ := List.cons_prefix_cons.mp hpre
            have hh := splitCommaWsAux_head_prefix wt f cs hrest
              (fun x hx => (hw x (List.mem_cons_of_mem wc hx)).1)
              (by simp at hlen; omega)
            simp only [splitCommaWsAux, if_neg hc]
            cases hrec : splitCommaWsAux f cs with
            | nil => exact absurd hrec (splitCommaWsAux_ne_nil f cs)
            | cons p ps =>
              refine ⟨c :: p, List.mem_cons_self _ _, ?_⟩
              refine List.IsPrefix.isInfix (List.cons_prefix_cons.mpr ⟨hd, ?_⟩)
              rw [hrec, List.headD_cons] at hh
              exact hh
        · obtain ⟨p, hp, hwp⟩ := ih cs (by simp at hlen; omega) h2
          simp only [splitCommaWsAux, if_neg hc]
          cases hrec : splitCommaWsAux f cs with
          | nil => exact absurd hrec (splitCommaWsAux_ne_nil f cs)
          | cons p0 ps =>
            rw [hrec] at hp
            rcases List.mem_cons.mp hp with rfl | htail
            · exact ⟨c :: p, List.mem_cons_self _ _, List.infix_cons hwp⟩
            · exact ⟨p, List.mem_cons_of_mem _ htail, hwp⟩

/-- The delimiter start class avoids every keyword letter. -/
theorem delimStart_keyword_false (c : Char)
    (hlow : Char.toLower c ∈ ("supportqualifweekly").data) : delimStart c = false := by
  by_contra hds
  rw [Bool.not_eq_false] at hds
  unfold delimStart at hds
  rcases (by simpa using hds : (c = ',' ∨ c = '.') ∨ isJsWs c = true) with (rfl | rfl) | hws
  · exact absurd hlow (by decide)
  · exact absurd hlow (by decide)
  · have hcl : c ∈ [' ', '\t', '\n', '\r', '\x0b', '\x0c', '\u00A0', '\u1680',
        '\u2000', '\u2001', '\u2002', '\u2003', '\u2004', '\u2005', '\u2006',
        '\u2007', '\u2008', '\u2009', '\u200A', '\u2028', '\u2029', '\u202F',
        '\u205F', '\u3000', '\uFEFF'] := by
      simpa [isJsWs] using hws
    fin_cases hcl <;> exact absurd hlow (by decide)

/-- The delimiter character class avoids the keyword head letters s, q, w. -/
theorem delimChar_head_false (c : Char)
    (hlow : Char.toLower c ∈ (['s', 'q', 'w'] : List Char)) : delimChar c = false := by
  unfold delimChar
  have h1 : delimStart c = false := by
    apply delimStart_keyword_false
    rcases (by simpa using hlow : Char.toLower c = 's' ∨ Char.toLower c = 'q'
      ∨ Char.toLower c = 'w') with h | h | h <;> rw [h] <;> decide
  rw [h1]
  rcases (by simpa using hlow : Char.toLower c = 's' ∨ Char.toLower c = 'q'
    ∨ Char.toLower c = 'w') with h | h | h <;> rw [Bool.false_or, h] <;> decide

/-- Preservation of an infix keyword through one full `scanReplace` pass. -/
theorem scanReplace_preserves_infix (m : List Char → Option Nat)
    (startP matchP : Char → Bool) (hb : MatcherBound m) (hc : MatcherChars m matchP)
    (hs : MatcherStart m startP) (w : List Char)
    (hw : ∀ c ∈ w, startP c = false)
    (hw0 : ∀ (c : Char) (t : List Char), w = c :: t → matchP c = false)
    (s : List Char) (hinf : w <:+: s) : w <:+: scanReplace m s := by
  obtain ⟨u, v, hsplit⟩ := hinf
  rw [scanReplace, ← hsplit, List.append_assoc]
  exact scanReplace_preserves m startP matchP hb hc hs w hw hw0 _ u v (le_refl _)

/-- If the lowercased description contains a keyword (at least 4 letters drawn
from the canned-template trigger words, starting with s, q or w), then
`parseSteps` keeps at least one fragment: the keyword letters are never
delimiter-start characters, its head is never inside a delimiter match, so the
keyword survives all five replacements, the comma split and the trim, leaving
a fragment of trimmed length at least 4. -/
theorem parseSteps_ne_of_keyword (d : String) (kw : List Char)
    (hne : kw ≠ []) (hlen4 : 3 < kw.length)
    (hchars : ∀ ch ∈ kw, ch ∈ ("supportqualifweekly").data)
    (hhead : ∀ c ∈ kw.take 1, c ∈ (['s', 'q', 'w'] : List Char))
    (hinf : kw <:+: (jsToLower d).data) :
    parseSteps d ≠ [] := by
  obtain ⟨u, v, huv⟩ := hinf
  have huv2 : d.data.map Char.toLower = (u ++ kw) ++ v := huv.symm
  rw [List.map_eq_append_iff] at huv2
  obtain ⟨s1, t1, hsplit1, hmap1, hmap2⟩ := huv2
  rw [List.map_eq_append_iff] at hmap1
  obtain ⟨du, dw, hsplit2, hmapu, hmapw⟩ := hmap1
  have hdwne : dw ≠ [] := by
    intro h
    rw [h] at hmapw
    exact hne (by simpa using hmapw.symm)
  have hdwlen : dw.length = kw.length := by rw [← hmapw, List.length_map]
  have hstart : ∀ c ∈ dw, delimStart c = false := by
    intro c hc
    exact delimStart_keyword_false c (hchars _ (hmapw ▸ List.mem_map_of_mem Char.toLower hc))
  have hws2 : ∀ c ∈ dw, isJsWs c = false := by
    intro c hc
    have hds := hstart c hc
    cases hws : isJsWs c with
    | false => rfl
    | true =>
      exfalso
      have hds2 : delimStart c = true := by simp [delimStart, hws]
      rw [hds2] at hds
      cases hds
  have hheadw : ∀ (c : Char) (t : List Char), dw = c :: t → delimChar c = false := by
    intro c t hct
    apply delimChar_head_false
    apply hhead
    rw [← hmapw, hct]
    simp
  have hd0 : dw <:+: d.data := ⟨du, t1, by rw [hsplit1, hsplit2]⟩
  have h1 := scanReplace_preserves_infix mCommaAndThen delimStart delimChar
    mCommaAndThen_bound mCommaAndThen_chars mCommaAndThen_start dw hstart hheadw d.data hd0
  have h2 := scanReplace_preserves_infix mAndThen delimStart delimChar
    mAndThen_bound mAndThen_chars mAndThen_start dw hstart hheadw _ h1
  have h3 := scanReplace_preserves_infix mThen delimStart delimChar
    mThen_bound mThen_chars mThen_start dw hstart hheadw _ h2
  have h4 := scanReplace_preserves_infix mDotWs delimStart delimChar
    mDotWs_bound mDotWs_chars mDotWs_start dw hstart hheadw _ h3
  have h5 := scanReplace_preserves_infix mCommaAnd delimStart delimChar
    mCommaAnd_bound mCommaAnd_chars mCommaAnd_start dw hstart hheadw _ h4
  have h6 : dw <:+: normalizeDelims d.data := h5
  obtain ⟨p, hp, hwp⟩ := splitCommaWsAux_infix dw hdwne
    (fun c hc => ⟨fun hcc => absurd (hcc ▸ hstart c hc) (by decide), hws2 c hc⟩)
    (normalizeDelims d.data).length (normalizeDelims d.data) (le_refl _) h6
  have htr := infix_trimChars dw hws2 hdwne p hwp
  have hlenp : 3 < (trimChars p).length :=
    lt_of_lt_of_le (by rw [hdwlen]; exact hlen4) htr.length_le
  intro hps
  have hpmem : p ∈ splitCommaWs (normalizeDelims d.data) := hp
  have hmemf : p ∈ (splitCommaWs (normalizeDelims d.data)).filter
      (fun p => 3 < (trimChars p).length) :=
    List.mem_filter.mpr ⟨hpmem, by simpa using hlenp⟩
  simp only [parseSteps] at hps
  rw [List.map_eq_nil_iff] at hps
  rw [hps] at hmemf
  exact absurd hmemf (List.not_mem_nil p)

/-- No canned-template trigger keyword occurs in a description whose step
parsing is empty. -/
theorem jsIncludes_keyword_false (d : String) (hps : parseSteps d = [])
    (sub : String) (hne : sub.data ≠ []) (hlen4 : 3 < sub.data.length)
    (hchars : ∀ ch ∈ sub.data, ch ∈ ("supportqualifweekly").data)
    (hhead : ∀ c ∈ sub.data.take 1, c ∈ (['s', 'q', 'w'] : List Char)) :
    jsIncludes (jsToLower d) sub = false := by
  cases h : jsIncludes (jsToLower d) sub with
  | false => rfl
  | true =>
    exfalso
    have h2 : decide (sub.data <:+: (jsToLower d).data) = true := h
    exact parseSteps_ne_of_keyword d sub.data hne hlen4 hchars hhead
      (of_decide_eq_true h2) hps

/-- C8: an input whose step parsing yields zero usable steps (in particular
the empty string) gets the minimal fallback plan: exactly one agent, of
archetype Orchestrator, and no edges; validating that plan returns ok with no
errors and no warnings. -/
theorem c8_minimal_plan (d : String) (hps : parseSteps d = []) :
    planFromDescription d = minimalPlan d ∧
    (planFromDescription d).agents.length = 1 ∧
    (∀ a ∈ (planFromDescription d).agents, a.type = AgentType.Orchestrator) ∧
    (planFromDescription d).edges = [] ∧
    (validatePlan (planFromDescription d)).ok = true ∧
    (validatePlan (planFromDescription d)).errors = [] ∧
    (validatePlan (planFromDescription d)).warnings = [] := by
  have hsupport := jsIncludes_keyword_false d hps ("support")
    (by decide) (by decide) (by decide) (by decide)
  have hqualif := jsIncludes_keyword_false d hps ("qualif")
    (by decide) (by decide) (by decide) (by decide)
  have hweekly := jsIncludes_keyword_false d hps ("weekly")
    (by decide) (by decide) (by decide) (by decide)
  have hplan : planFromDescription d = minimalPlan d := by
    simp [planFromDescription, hsupport, hqualif, hweekly, hps]
  refine ⟨hplan, ?_, ?_, ?_, ?_, ?_, ?_⟩ <;> rw [hplan]
  · rfl
  · intro a ha
    have h1 : a = (minimalPlan d).agents.headD a := by
      simpa [minimalPlan] using ha
    rw [h1]
    rfl
  · rfl
  · rfl
  · rfl
  · rfl

/-- Closed instance of C8 at the empty description. -/
theorem c8_witness :
    parseSteps ("") = [] ∧ (validatePlan (planFromDescription (""))).warnings = [] :=
  ⟨rfl, (c8_minimal_plan ("") rfl).2.2.2.2.2.2⟩

-- ─────────────────────────────────────────────────────────────────────────────
-- Acyclicity and reference validity of the free-text chain plan
-- ─────────────────────────────────────────────────────────────────────────────

/-- Rank of a chain agent id: the decimal value of the digits after "agent-". -/
def chainRank (s : String) : Nat := decValRev ((s.data.drop 6).reverse)

theorem digitVal_digitChar (d : Nat) (hd : d < 10) : digitVal (digitChar d) = d := by
  interval_cases d <;> rfl

theorem decValRev_natToDecRevAux : ∀ (fuel n : Nat), n ≤ fuel →
    decValRev (natToDecRevAux fuel n) = n := by
  intro fuel
  induction fuel with
  | zero =>
    intro n hn
    have h0 : n = 0 := Nat.le_zero.mp hn
    subst h0
    rfl
  | succ f ih =>
    intro n hn
    by_cases h10 : n < 10
    · simp only [natToDecRevAux, if_pos h10]
      simp [decValRev, digitVal_digitChar n h10]
    · simp only [natToDecRevAux, if_neg h10]
      have hrec : n / 10 ≤ f := by
        have h1 : n / 10 < n := Nat.div_lt_self (by omega) (by omega)
        omega
      simp only [decValRev]
      rw [ih (n / 10) hrec, digitVal_digitChar _ (Nat.mod_lt n (by omega))]
      omega

theorem decValRev_natToDecRev (n : Nat) : decValRev (natToDecRev n) = n :=
  decValRev_natToDecRevAux n n (le_refl n)

theorem chainRank_chainAgentId (i : Nat) : chainRank (chainAgentId i) = i := by
  have h3 : ((("agent-").data ++ (natToDecRev i).reverse).drop 6)
      = (natToDecRev i).reverse := by
    have h := List.drop_left (("agent-").data) ((natToDecRev i).reverse)
    simpa using h
  have hdata : (chainAgentId i).data = ("agent-").data ++ (natToDecRev i).reverse := rfl
  rw [chainRank, hdata, h3, List.reverse_reverse]
  exact decValRev_natToDecRev i

theorem chainAgentId_inj (i j : Nat) (h : chainAgentId i = chainAgentId j) : i = j := by
  have h2 := congrArg chainRank h
  rwa [chainRank_chainAgentId, chainRank_chainAgentId] at h2

theorem foldl_jsSetAdd_nodup : ∀ (l acc : List String), (∀ x ∈ l, ¬ x ∈ acc) → l.Nodup →
    l.foldl jsSetAdd acc = acc ++ l := by
  intro l
  induction l with
  | nil => intro acc _ _; simp
  | cons x xs ih =>
    intro acc hdis hnd
    have hxnotin : ¬ x ∈ acc := hdis x (List.mem_cons_self x xs)
    have hcontains : acc.contains x = false := by
      cases hc : acc.contains x with
      | false => rfl
      | true => exact absurd (List.mem_of_elem_eq_true hc) hxnotin
    have hstep : jsSetAdd acc x = acc ++ [x] := by simp [jsSetAdd, hcontains, hxnotin]
    show List.foldl jsSetAdd (jsSetAdd acc x) xs = acc ++ x :: xs
    rw [hstep]
    have hih := ih (acc ++ [x])
      (by
        intro y hy hmem
        rcases List.mem_append.mp hmem with h1 | h1
        · exact hdis y (List.mem_cons_of_mem x hy) h1
        · have hyx : y = x := List.mem_singleton.mp h1
          subst hyx
          exact (List.nodup_cons.mp hnd).1 hy)
      (List.Nodup.of_cons hnd)
    rw [hih]
    simp

theorem jsSetOfList_eq_self (l : List String) (h : l.Nodup) : jsSetOfList l = l := by
  have h2 := foldl_jsSetAdd_nodup l []
    (fun x _ hx => absurd hx (List.not_mem_nil x)) h
  simpa [jsSetOfList] using h2

theorem adjGet_init (ids : List String) (key : String) :
    adjGet (ids.map (fun i => (i, ([] : List String)))) key = [] := by
  induction ids with
  | nil => rfl
  | cons i rest ih =>
    by_cases h : (i == key) = true
    · unfold adjGet
      rw [List.map_cons, List.find?_cons_of_pos _ (by simpa using h)]
      rfl
    · unfold adjGet at ih ⊢
      rw [List.map_cons, List.find?_cons_of_neg _ (by simpa using h)]
      exact ih

theorem adjGet_adjPush_sub (adj : List (String × List String)) (k v key x : String)
    (hx : x ∈ adjGet (adjPush adj k v) key) : x ∈ adjGet adj key ∨ (x = v ∧ key = k) := by
  unfold adjGet adjPush at hx
  unfold adjGet
  rw [List.find?_map] at hx
  have hpf : ((fun kv : String × List String => kv.1 == key)
      ∘ (fun kv => if kv.1 == k then (kv.1, kv.2 ++ [v]) else kv))
      = (fun kv : String × List String => kv.1 == key) := by
    funext kv
    by_cases h : (kv.1 == k) = true <;> simp [Function.comp, h]
  rw [hpf] at hx
  cases hfind : adj.find? (fun kv => kv.1 == key) with
  | none =>
    rw [hfind] at hx
    simp at hx
  | some kv =>
    rw [hfind] at hx
    by_cases hk : (kv.1 == k) = true
    · have hkk : kv.1 = k := eq_of_beq hk
      have hx2 : x ∈ kv.2 ++ [v] := by simpa [hkk] using hx
      rcases List.mem_append.mp hx2 with h1 | h1
      · left
        simpa using h1
      · right
        refine ⟨List.mem_singleton.mp h1, ?_⟩
        have hfs := List.find?_some hfind
        have hkey : kv.1 = key := by simpa using hfs
        rw [← hkey, hkk]
    · have hkk : ¬ (kv.1 = k) := by simpa using hk
      left
      simpa [hkk] using hx

theorem foldl_adjPush_rank (r : String → Nat) :
    ∀ (edges : List EdgeSpec) (adj : List (String × List String)),
      (∀ key x, x ∈ adjGet adj key → r key < r x) →
      (∀ e ∈ edges, r e.fromId < r e.toId) →
      ∀ key x, x ∈ adjGet (edges.foldl (fun a e => adjPush a e.fromId e.toId) adj) key →
        r key < r x := by
  intro edges
  induction edges with
  | nil => intro adj hadj _ key x hx; exact hadj key x hx
  | cons e rest ih =>
    intro adj hadj hedges key x hx
    refine ih (adjPush adj e.fromId e.toId) ?_
      (fun e2 he2 => hedges e2 (List.mem_cons_of_mem e he2)) key x hx
    intro key2 x2 hx2
    rcases adjGet_adjPush_sub adj e.fromId e.toId key2 x2 hx2 with h1 | ⟨h1, h2⟩
    · exact hadj key2 x2 h1
    · rw [h1, h2]
      exact hedges e (List.mem_cons_self e rest)

theorem jsSetAdd_mem {x y : String} {l : List String} (h : x ∈ jsSetAdd l y) :
    x ∈ l ∨ x = y := by
  unfold jsSetAdd at h
  by_cases hc : (l.contains y) = true
  · rw [if_pos hc] at h
    exact Or.inl h
  · rw [if_neg hc] at h
    rcases List.mem_append.mp h with h1 | h1
    · exact Or.inl h1
    · exact Or.inr (List.mem_singleton.mp h1)

theorem dfsNeighbors_no_cycle
    (rec : String → List String → List String → List String × Bool) :
    ∀ (nbs visited recStack : List String),
      (∀ nb ∈ nbs, recStack.contains nb = false) →
      (∀ nb ∈ nbs, ∀ vis, (rec nb vis recStack).2 = false) →
      (dfsNeighbors rec nbs visited recStack).2 = false := by
  intro nbs
  induction nbs with
  | nil => intro visited recStack _ _; rfl
  | cons nb rest ih =>
    intro visited recStack h1 h2
    simp only [dfsNeighbors]
    by_cases hv : (visited.contains nb) = true
    · rw [if_pos hv]
      have hrs := h1 nb (List.mem_cons_self nb rest)
      have hneg : ¬ (recStack.contains nb = true) := by
        rw [hrs]
        exact Bool.false_ne_true
      rw [if_neg hneg]
      exact ih visited recStack (fun y hy => h1 y (List.mem_cons_of_mem nb hy))
        (fun y hy => h2 y (List.mem_cons_of_mem nb hy))
    · rw [if_neg hv]
      cases hcall : rec nb visited recStack with
      | mk v2 b =>
        have hrec := h2 nb (List.mem_cons_self nb rest) visited
        rw [hcall] at hrec
        have hb : b = false := hrec
        subst hb
        exact ih v2 recStack (fun y hy => h1 y (List.mem_cons_of_mem nb hy))
          (fun y hy => h2 y (List.mem_cons_of_mem nb hy))

theorem hasCycleDfs_no_cycle (adj : List (String × List String)) (r : String → Nat)
    (hadj : ∀ k x, x ∈ adjGet adj k → r k < r x) :
    ∀ (fuel : Nat) (node : String) (visited recStack : List String),
      (∀ x ∈ recStack, r x ≤ r node) →
      (hasCycleDfs adj fuel node visited recStack).2 = false := by
  intro fuel
  induction fuel with
  | zero => intro node visited recStack _; rfl
  | succ f ih =>
    intro node visited recStack hrs
    simp only [hasCycleDfs]
    apply dfsNeighbors_no_cycle
    · intro nb hnb
      cases hc : ((jsSetAdd recStack node).contains nb) with
      | false => rfl
      | true =>
        exfalso
        have hmem := List.mem_of_elem_eq_true hc
        have hlt := hadj node nb hnb
        rcases jsSetAdd_mem hmem with h1 | h1
        · have hle := hrs nb h1
          omega
        · rw [h1] at hlt
          omega
    · intro nb hnb vis
      apply ih
      intro x hx
      rcases jsSetAdd_mem hx with h1 | h1
      · exact le_of_lt (lt_of_le_of_lt (hrs x h1) (hadj node nb hnb))
      · rw [h1]
        exact le_of_lt (hadj node nb hnb)

theorem detectCycleAux_no_cycle (adj : List (String × List String)) (r : String → Nat)
    (hadj : ∀ k x, x ∈ adjGet adj k → r k < r x) (fuel : Nat) :
    ∀ (ids visited : List String), detectCycleAux adj fuel ids visited = false := by
  intro ids
  induction ids with
  | nil => intro visited; rfl
  | cons id rest ih =>
    intro visited
    simp only [detectCycleAux]
    by_cases hv : (visited.contains id) = true
    · rw [if_pos hv]
      exact ih visited
    · rw [if_neg hv]
      cases hcall : hasCycleDfs adj fuel id visited [] with
      | mk v2 b =>
        have hb : b = false := by
          have h2 := hasCycleDfs_no_cycle adj r hadj fuel id visited []
            (fun x hx => absurd hx (List.not_mem_nil x))
          rw [hcall] at h2
          exact h2
        subst hb
        exact ih v2

theorem chain_ids_eq (steps : List String) :
    ((List.range steps.length).map (chainAgent steps)).map (fun a => a.id)
      = (List.range steps.length).map (fun i => chainAgentId (i + 1)) := by
  rw [List.map_map]
  exact List.map_congr_left (fun a _ => rfl)

theorem chain_ids_nodup (steps : List String) :
    ((List.range steps.length).map (fun i => chainAgentId (i + 1))).Nodup := by
  refine (List.nodup_range _).map ?_
  intro a b hab
  have h2 := chainAgentId_inj (a + 1) (b + 1) hab
  omega

theorem chainAgentId_mem (steps : List String) (k : Nat) (h1 : 1 ≤ k)
    (h2 : k ≤ steps.length) :
    chainAgentId k ∈ (List.range steps.length).map (fun i => chainAgentId (i + 1)) := by
  refine List.mem_map.mpr ⟨k - 1, List.mem_range.mpr (by omega), ?_⟩
  congr 1
  omega

theorem foldl_edgeRefStep_nil (agentIds : List String) :
    ∀ (edges : List EdgeSpec),
      (∀ e ∈ edges, agentIds.contains e.fromId = true ∧ agentIds.contains e.toId = true) →
      ∀ errs, edges.foldl (edgeRefStep agentIds) errs = errs := by
  intro edges
  induction edges with
  | nil => intro _ errs; rfl
  | cons e rest ih =>
    intro h errs
    have he := h e (List.mem_cons_self e rest)
    have hm1 : e.fromId ∈ agentIds := List.mem_of_elem_eq_true he.1
    have hm2 : e.toId ∈ agentIds := List.mem_of_elem_eq_true he.2
    have hstep : edgeRefStep agentIds errs e = errs := by
      simp [edgeRefStep, hm1, hm2]
    show List.foldl (edgeRefStep agentIds) (edgeRefStep agentIds errs e) rest = errs
    rw [hstep]
    exact ih (fun e2 he2 => h e2 (List.mem_cons_of_mem e he2)) errs

theorem foldl_inputRefStep_inner (agentIds : List String) (a : AgentNode) :
    ∀ (inps : List AgentInput),
      (∀ inp ∈ inps, ∀ f, inp.fromId = some f →
        f = ("") ∨ agentIds.contains f = true) →
      ∀ errs, inps.foldl (inputRefStep agentIds a) errs = errs := by
  intro inps
  induction inps with
  | nil => intro _ errs; rfl
  | cons inp rest ih =>
    intro h errs
    have hstep : inputRefStep agentIds a errs inp = errs := by
      cases hfrom : inp.fromId with
      | none => simp [inputRefStep, hfrom]
      | some f =>
        rcases h inp (List.mem_cons_self inp rest) f hfrom with h1 | h1
        · simp [inputRefStep, hfrom, h1]
        · have hm : f ∈ agentIds := List.mem_of_elem_eq_true h1
          by_cases hf : f = ("") <;> simp [inputRefStep, hfrom, hf, hm]
    show List.foldl (inputRefStep agentIds a) (inputRefStep agentIds a errs inp) rest = errs
    rw [hstep]
    exact ih (fun i2 hi2 => h i2 (List.mem_cons_of_mem inp hi2)) errs

theorem foldl_inputRefStep_nil (agentIds : List String) :
    ∀ (agents : List AgentNode),
      (∀ a ∈ agents, ∀ inp ∈ a.inputs, ∀ f, inp.fromId = some f →
        f = ("") ∨ agentIds.contains f = true) →
      ∀ errs, agents.foldl
        (fun errs a => a.inputs.foldl (inputRefStep agentIds a) errs) errs = errs := by
  intro agents
  induction agents with
  | nil => intro _ errs; rfl
  | cons a rest ih =>
    intro h errs
    show List.foldl _ (a.inputs.foldl (inputRefStep agentIds a) errs) rest = errs
    rw [foldl_inputRefStep_inner agentIds a a.inputs
      (h a (List.mem_cons_self a rest)) errs]
    exact ih (fun a2 ha2 => h a2 (List.mem_cons_of_mem a ha2)) errs

theorem chain_edges_ref (steps : List String) :
    ∀ e ∈ (List.range (steps.length - 1)).map (chainEdge steps),
      ((List.range steps.length).map (fun i => chainAgentId (i + 1))).contains e.fromId
        = true
      ∧ ((List.range steps.length).map (fun i => chainAgentId (i + 1))).contains e.toId
        = true := by
  intro e he
  obtain ⟨j, hj, rfl⟩ := List.mem_map.mp he
  have hjr : j < steps.length - 1 := List.mem_range.mp hj
  constructor
  · exact List.elem_eq_true_of_mem
      (chainAgentId_mem steps (j + 1) (by omega) (by omega))
  · exact List.elem_eq_true_of_mem
      (chainAgentId_mem steps (j + 2) (by omega) (by omega))

theorem chain_agents_inputs (steps : List String) :
    ∀ a ∈ (List.range steps.length).map (chainAgent steps), ∀ inp ∈ a.inputs,
      ∀ f, inp.fromId = some f →
      f = ("")
      ∨ ((List.range steps.length).map (fun i => chainAgentId (i + 1))).contains f
          = true := by
  intro a ha inp hinp f hf
  obtain ⟨i, hi, rfl⟩ := List.mem_map.mp ha
  have hir : i < steps.length := List.mem_range.mp hi
  by_cases hi0 : i = 0
  · subst hi0
    have hnone : inp.fromId = none := by
      simp [chainAgent] at hinp
      rw [hinp]
    rw [hnone] at hf
    cases hf
  · right
    have hfrom : inp.fromId = some (chainAgentId i) := by
      simp [chainAgent, hi0] at hinp
      rw [hinp]
    rw [hfrom] at hf
    have hfeq : f = chainAgentId i := (Option.some.inj hf).symm
    rw [hfeq]
    exact List.elem_eq_true_of_mem (chainAgentId_mem steps i (by omega) (by omega))

theorem chain_edges_rank (steps : List String) :
    ∀ e ∈ (List.range (steps.length - 1)).map (chainEdge steps),
      chainRank e.fromId < chainRank e.toId := by
  intro e he
  obtain ⟨j, hj, rfl⟩ := List.mem_map.mp he
  show chainRank (chainAgentId (j + 1)) < chainRank (chainAgentId (j + 2))
  rw [chainRank_chainAgentId, chainRank_chainAgentId]
  omega

theorem chain_adj_rank (steps : List String) (agentIds : List String) :
    ∀ key x,
      x ∈ adjGet (buildAdjacency agentIds
        ((List.range (steps.length - 1)).map (chainEdge steps))) key →
      chainRank key < chainRank x := by
  intro key x hx
  exact foldl_adjPush_rank chainRank
    ((List.range (steps.length - 1)).map (chainEdge steps))
    (agentIds.map (fun i => (i, ([] : List String))))
    (fun key2 x2 hx2 => absurd (by rwa [adjGet_init] at hx2) (List.not_mem_nil x2))
    (chain_edges_rank steps) key x hx

/-- The chain plan produced from any list of parsed steps passes validation
with no errors: all edge and input references resolve, and the rank function
on chain ids rules out cycles. -/
theorem chain_errors_nil (description : String) (steps : List String) :
    (validatePlan (planFromSteps description steps)).errors = [] := by
  have hids : (planFromSteps description steps).agents.map (fun a => a.id)
      = (List.range steps.length).map (fun i => chainAgentId (i + 1)) :=
    chain_ids_eq steps
  have hset : jsSetOfList ((planFromSteps description steps).agents.map (fun a => a.id))
      = (List.range steps.length).map (fun i => chainAgentId (i + 1)) := by
    rw [hids]
    exact jsSetOfList_eq_self _ (chain_ids_nodup steps)
  have hedge : edgeRefErrors
      ((List.range steps.length).map (fun i => chainAgentId (i + 1)))
      (planFromSteps description steps).edges = [] :=
    foldl_edgeRefStep_nil _ _ (chain_edges_ref steps) []
  have hinp : inputRefErrors
      ((List.range steps.length).map (fun i => chainAgentId (i + 1)))
      (planFromSteps description steps).agents = [] :=
    foldl_inputRefStep_nil _ _ (chain_agents_inputs steps) []
  have hcyc : detectCycleAux
      (buildAdjacency ((List.range steps.length).map (fun i => chainAgentId (i + 1)))
        (planFromSteps description steps).edges)
      (((List.range steps.length).map (fun i => chainAgentId (i + 1))).length + 1)
      ((List.range steps.length).map (fun i => chainAgentId (i + 1))) [] = false :=
    detectCycleAux_no_cycle _ chainRank (chain_adj_rank steps _) _ _ []
  simp only [validatePlan, hset, hedge, hinp, hcyc]
  simp

/-- C10: the validator accepts every plan the planner produces: for every
input string the validation of `planFromDescription` has an empty error list
and `ok` is true; warnings may remain, and validating the support-triage
canned template yields exactly the severity-classifier orphan warning while
staying ok. -/
theorem c10_planner_plans_validate :
    (∀ d : String, (validatePlan (planFromDescription d)).errors = []
      ∧ (validatePlan (planFromDescription d)).ok = true)
    ∧ (validatePlan supportTriageTemplate).ok = true
    ∧ (validatePlan supportTriageTemplate).warnings
        = [("Agent \x27Severity Classifier\x27 output \x27severity\x27 is not consumed by any edge")] := by
  refine ⟨?_, by rfl, by rfl⟩
  intro d
  have herr : (validatePlan (planFromDescription d)).errors = [] := by
    by_cases h1 : (jsIncludes (jsToLower d) ("support")
        && jsIncludes (jsToLower d) ("triage")) = true
    · have hpl : planFromDescription d = supportTriageTemplate := by
        simp only [planFromDescription]
        rw [if_pos h1]
      rw [hpl]
      rfl
    · by_cases h2 : (jsIncludes (jsToLower d) ("lead")
          && jsIncludes (jsToLower d) ("qualif")) = true
      · have hpl : planFromDescription d = leadQualificationTemplate := by
          simp only [planFromDescription]
          rw [if_neg h1, if_pos h2]
        rw [hpl]
        rfl
      · by_cases h3 : (jsIncludes (jsToLower d) ("weekly")
            && jsIncludes (jsToLower d) ("report")) = true
        · have hpl : planFromDescription d = weeklyReportTemplate := by
            simp only [planFromDescription]
            rw [if_neg h1, if_neg h2, if_pos h3]
          rw [hpl]
          rfl
        · by_cases h4 : (parseSteps d).length = 0
          · have hpl : planFromDescription d = minimalPlan d := by
              simp only [planFromDescription]
              rw [if_neg h1, if_neg h2, if_neg h3, if_pos h4]
            rw [hpl]
            rfl
          · have hpl : planFromDescription d = planFromSteps d (parseSteps d) := by
              simp only [planFromDescription]
              rw [if_neg h1, if_neg h2, if_neg h3, if_neg h4]
            rw [hpl]
            exact chain_errors_nil d (parseSteps d)
  have hok : (validatePlan (planFromDescription d)).ok
      = (validatePlan (planFromDescription d)).errors.isEmpty := rfl
  rw [hok, herr]
  exact ⟨rfl, rfl⟩

end AWP
